import Mathlib

/-!
Verification of the lottie-edit repository: a shallow embedding of its
color codec (`colorUtils.ts`), color entity extractor and path-addressed
patcher (`lottieColorUtils.ts`), and the update-coordinator / image
replacement handlers (`LottieAnimation.tsx`), together with proofs of the
specification's testable properties.

JavaScript runtime values reachable from parsed JSON documents are
modelled by the inductive type `Json`.  Two extra constructors model
values that arise only transiently at runtime: `undefined` (result of
reading an absent property) and `nan` (result of `parseInt` on a
non-numeric string).  JS numbers are modelled as rationals; the sources
only perform arithmetic (`*255`, `Math.round`, `/255`, `parseInt`) whose
intended semantics is exact.
-/

/-- A JavaScript value as manipulated by the sources.  Objects are
association lists without duplicate keys (the shape `JSON.parse`
produces). -/
inductive Json where
  | null : Json
  | undefined : Json
  | nan : Json
  | bool : Bool → Json
  | num : ℚ → Json
  | str : String → Json
  | arr : List Json → Json
  | obj : List (String × Json) → Json

/-- A single step of a path address: a string key or a numeric index. -/
inductive Key where
  | str : String → Key
  | num : Nat → Key
deriving DecidableEq

/-- Object property lookup; an absent key reads as `undefined`. -/
def lookupField : List (String × Json) → String → Json
  | [], _ => Json.undefined
  | (k, v) :: rest, key => if k = key then v else lookupField rest key

/-- Object property assignment: update in place if the key exists,
append otherwise (JS property-creation order). -/
def setField : List (String × Json) → String → Json → List (String × Json)
  | [], key, v => [(key, v)]
  | (k, w) :: rest, key, v =>
      if k = key then (k, v) :: rest else (k, w) :: setField rest key v

/-- String-keyed property read, totalized.  On a non-object receiver a JS
property read yields `undefined` (primitives have no own JSON-visible
properties; built-in properties such as `String.length` are not reached
by the sources through this operation).  Note that reading a property of
`null`/`undefined` throws in JS; the throwing variant is `jsRead`, and
this total function is only used where the source either guards the
receiver or the receiver is known to be an object. -/
def getF (j : Json) (key : String) : Json :=
  match j with
  | Json.obj fs => lookupField fs key
  | _ => Json.undefined

/-- Numeric-index read: array element (or `undefined` out of bounds),
object property named by the decimal index, single-character string for
string receivers. -/
def getIdx (j : Json) (i : Nat) : Json :=
  match j with
  | Json.arr xs => xs.getD i Json.undefined
  | Json.obj fs => lookupField fs (toString i)
  | Json.str s =>
      match s.toList[i]? with
      | some c => Json.str (String.mk [c])
      | none => Json.undefined
  | _ => Json.undefined

/-- Read by a path `Key`. -/
def getVal (j : Json) (k : Key) : Json :=
  match k with
  | Key.str s => getF j s
  | Key.num i => getIdx j i

/-- JS property read as performed by the patcher's walk: reading a
property of `null` or `undefined` throws a `TypeError` (`none`); any
other receiver yields a value. -/
def jsRead (j : Json) (k : Key) : Option Json :=
  match j with
  | Json.null => none
  | Json.undefined => none
  | _ => some (getVal j k)

/-- The optional-chaining read `x?.k`: yields `undefined` instead of
throwing when the receiver is `null`/`undefined`. -/
def optGet (j : Json) (key : String) : Json :=
  match j with
  | Json.null => Json.undefined
  | Json.undefined => Json.undefined
  | _ => getF j key

/-- The optional-chaining indexed read `x?.[i]`. -/
def optIdx (j : Json) (i : Nat) : Json :=
  match j with
  | Json.null => Json.undefined
  | Json.undefined => Json.undefined
  | _ => getIdx j i

/-- JS truthiness. -/
def truthy (j : Json) : Bool :=
  match j with
  | Json.null => false
  | Json.undefined => false
  | Json.nan => false
  | Json.bool b => b
  | Json.num q => decide (q ≠ 0)
  | Json.str s => decide (s ≠ "")
  | Json.arr _ => true
  | Json.obj _ => true

/-- The strict comparison `x === n` against a number literal. -/
def isNumVal (j : Json) (q : ℚ) : Bool :=
  match j with
  | Json.num q' => decide (q' = q)
  | _ => false

/-- The strict comparison `x === s` against a string literal. -/
def isStrVal (j : Json) (s : String) : Bool :=
  match j with
  | Json.str s' => decide (s' = s)
  | _ => false

/-- The test `typeof x === 'string'`. -/
def isStringType (j : Json) : Bool :=
  match j with
  | Json.str _ => true
  | _ => false

/-- The source tests `k && k.length >= 3` (with `k` cast to an array):
true for arrays and strings of length at least 3.  A non-array object
carrying a numeric `length` property could also pass the source's test;
such values do not occur in parsed animation documents and are outside
the modelled domain. -/
def hasLen3 (j : Json) : Bool :=
  match j with
  | Json.arr xs => decide (3 ≤ xs.length)
  | Json.str s => decide (3 ≤ s.length)
  | _ => false

/-- Array element assignment.  Writing past the end creates a sparse
array whose holes read back as `undefined`; we materialize the holes. -/
def arrSet (xs : List Json) (i : Nat) (v : Json) : List Json :=
  if i < xs.length then xs.set i v
  else xs ++ List.replicate (i - xs.length) Json.undefined ++ [v]

/-- Render a path key the way JS coerces property keys to strings. -/
def keyToString (k : Key) : String :=
  match k with
  | Key.str s => s
  | Key.num i => toString i

/-- JS property assignment `j[k] = v` in strict mode: succeeds on
objects (any key) and arrays (numeric key); throws a `TypeError` on
`null`, `undefined` and primitives.  Assigning a non-index key on an
array stores a property invisible to the JSON tree model; such writes
are modelled as leaving the array unchanged (they are unreachable from
extractor-produced paths, whose keys always fit their container). -/
def jsWrite (j : Json) (k : Key) (v : Json) : Option Json :=
  match j, k with
  | Json.obj fs, k => some (Json.obj (setField fs (keyToString k) v))
  | Json.arr xs, Key.num i => some (Json.arr (arrSet xs i v))
  | Json.arr xs, Key.str _ => some (Json.arr xs)
  | _, _ => none

/-- Resolve a path address by successive JS reads (`none` = a read
threw). -/
def getPath : Json → List Key → Option Json
  | j, [] => some j
  | j, k :: rest => (jsRead j k).bind (fun c => getPath c rest)

/-- The patcher's array-arity rule (`updateColorInJson`, lines 149-160):
if the existing value is an array of length exactly 3 and the new value
is an array, keep only the new value's first three elements; otherwise
store the new value verbatim. -/
def truncValue (originalValue newColor : Json) : Json :=
  match originalValue, newColor with
  | Json.arr os, Json.arr vs =>
      if os.length = 3 then
        Json.arr [vs.getD 0 Json.undefined, vs.getD 1 Json.undefined, vs.getD 2 Json.undefined]
      else newColor
  | _, _ => newColor

/-- The patcher's walk-and-assign, written functionally.  The source
walks `path[0..len-2]` by successive reads on the clone and assigns at
the final key; since the clone is a tree (no aliasing), in-place
assignment at the reached location equals a functional update along the
path.  `none` models a thrown `TypeError`. -/
def patchAt : Json → List Key → Json → Option Json
  | _, [], _ => none
  | cur, k :: rest, v =>
      (jsRead cur k).bind (fun child =>
        match rest with
        | [] => jsWrite cur k (truncValue child v)
        | _ :: _ => (patchAt child rest v).bind (fun child' => jsWrite cur k child'))

/-- `updateColorInJson(animationData, path, newColor)`.  The source first
deep-clones via `JSON.parse(JSON.stringify(...))`, which is the identity
on the modelled value tree (stringify's normalization of non-JSON values
is not modelled; extractor-produced patches never introduce them), so
the caller's document is never changed — immutability is inherent in
this functional model.  An empty path makes the source read and assign
the property named `"undefined"` on the root (JS coerces `path[-1]`). -/
def updateColorInJson (animationData : Json) (path : List Key) (newColor : Json) : Option Json :=
  let p := if path.isEmpty then [Key.str "undefined"] else path
  patchAt animationData p newColor

/-!
## Color Codec (`colorUtils.ts`)
-/

/-- `Math.round`: round half toward positive infinity. -/
def jsRound (q : ℚ) : ℤ := Int.floor (q + 1 / 2)

/-- The lowercase hexadecimal digit characters produced by
`Number.prototype.toString(16)`. -/
def hexDigitChar (k : Nat) : Char :=
  if k < 10 then Char.ofNat (48 + k) else Char.ofNat (87 + k)

/-- Hex digit expansion of a natural number, most significant first
(`n.toString(16)` for non-negative integers). -/
def natToHexChars (n : Nat) : List Char :=
  if n < 16 then [hexDigitChar n]
  else natToHexChars (n / 16) ++ [hexDigitChar (n % 16)]
decreasing_by exact Nat.div_lt_self (by omega) (by omega)

/-- `i.toString(16)` on an integral JS number: lowercase hex digits,
with a leading minus sign for negative values. -/
def jsIntToString16 (i : ℤ) : List Char :=
  if i < 0 then '-' :: natToHexChars i.natAbs else natToHexChars i.toNat

/-- `s.padStart(2, '0')`: prepend zeros up to length 2; longer strings
pass through unchanged. -/
def padStart2 (cs : List Char) : List Char :=
  if cs.length < 2 then List.replicate (2 - cs.length) '0' ++ cs else cs

/-- `lottieRGBAToHex(rgba)`: `#` followed by each of the first three
channels rendered as `Math.round(channel * 255).toString(16).padStart(2, '0')`;
the alpha channel is ignored. -/
def lottieRGBAToHex (rgba : ℚ × ℚ × ℚ × ℚ) : String :=
  String.mk ('#' :: padStart2 (jsIntToString16 (jsRound (rgba.1 * 255)))
    ++ padStart2 (jsIntToString16 (jsRound (rgba.2.1 * 255)))
    ++ padStart2 (jsIntToString16 (jsRound (rgba.2.2.1 * 255))))

/-- A character matched by the regex class `[a-f\d]` with the `i` flag. -/
def isHexDigitCI (c : Char) : Bool :=
  ('0' ≤ c && c ≤ '9') || ('a' ≤ c && c ≤ 'f') || ('A' ≤ c && c ≤ 'F')

/-- Numeric value of a hex digit (either case). -/
def hexVal (c : Char) : Nat :=
  if '0' ≤ c && c ≤ '9' then c.toNat - 48
  else if 'a' ≤ c && c ≤ 'f' then c.toNat - 87
  else c.toNat - 55

/-- `parseInt` of a two-hex-digit string (the regex groups of
`hexToLottieRGBA` are always exactly two hex digits). -/
def hexPairVal (c1 c2 : Char) : ℚ := ((16 * hexVal c1 + hexVal c2 : Nat) : ℚ)

/-- The optional leading `#` of the regex `^#?...$`. -/
def hexTail (s : String) : List Char :=
  match s.toList with
  | '#' :: rest => rest
  | l => l

/-- Whether a string matches `/^#?([a-f\d]{2})([a-f\d]{2})([a-f\d]{2})$/i`. -/
def validHexShape (s : String) : Bool :=
  (hexTail s).length = 6 && (hexTail s).all isHexDigitCI

/-- `hexToLottieRGBA(hex)`: on a regex match — exactly six
case-insensitive hex digits after the optional `#` — the three
two-digit groups parsed as bytes and divided by 255, with alpha fixed
at 1; on any other shape the default `[0,0,0,1]`. -/
def hexToLottieRGBA (hex : String) : ℚ × ℚ × ℚ × ℚ :=
  match hexTail hex with
  | [c1, c2, c3, c4, c5, c6] =>
      if [c1, c2, c3, c4, c5, c6].all isHexDigitCI then
        (hexPairVal c1 c2 / 255, hexPairVal c3 c4 / 255, hexPairVal c5 c6 / 255, 1)
      else (0, 0, 0, 1)
  | _ => (0, 0, 0, 1)

/-- The two lowercase hex digits of a byte value. -/
def byteChars (n : Nat) : List Char := [hexDigitChar (n / 16), hexDigitChar (n % 16)]

/-- A lowercase hexadecimal digit (what `toString(16)` emits). -/
def isLowerHexDigit (c : Char) : Bool :=
  ('0' ≤ c && c ≤ '9') || ('a' ≤ c && c ≤ 'f')

/-- `DEFAULT_COLOR`. -/
def DEFAULT_COLOR : ℚ × ℚ × ℚ × ℚ := (0, 0, 0, 1)

/-!
## General `parseInt(s, 16)` (used by the solid-layer positional parse)
-/

/-- Leading whitespace skipped by `parseInt` (the common ASCII white
space characters; the full Unicode white-space set is not needed by any
reachable input). -/
def isJsWhitespace (c : Char) : Bool :=
  c = ' ' || c = '\t' || c = '\n' || c = '\r' || c = Char.ofNat 11 || c = Char.ofNat 12

/-- Value of a list of hex digits, most significant first. -/
def hexDigitsVal (ds : List Char) : Nat :=
  ds.foldl (fun acc c => 16 * acc + hexVal c) 0

/-- `parseInt(s, 16)`: skip leading whitespace, optional sign, optional
`0x`/`0X` prefix, then the longest prefix of hex digits; `none` models
`NaN` (no digits). -/
def parseIntHexJs (s : String) : Option ℚ :=
  let cs := s.toList.dropWhile isJsWhitespace
  let signed : ℤ × List Char :=
    match cs with
    | '-' :: rest => (-1, rest)
    | '+' :: rest => (1, rest)
    | _ => (1, cs)
  let body : List Char :=
    match signed.2 with
    | '0' :: x :: rest => if x = 'x' || x = 'X' then rest else '0' :: x :: rest
    | l => l
  let digits := body.takeWhile isHexDigitCI
  if digits.isEmpty then none
  else some ((signed.1 : ℚ) * (hexDigitsVal digits : ℚ))

/-- `s.slice(a, b)` on a JS string (for `a ≤ b`): the characters from
index `a` (inclusive) to `b` (exclusive), clamped to the string. -/
def strSlice (s : String) (a b : Nat) : String :=
  String.mk ((s.toList.drop a).take (b - a))

/-- One channel of the solid-layer positional parse:
`parseInt(hex.slice(a, b), 16) / 255` as a JS number (`NaN` propagates
through the division). -/
def solidChannel (hex : String) (a b : Nat) : Json :=
  match parseIntHexJs (strSlice hex a b) with
  | some q => Json.num (q / 255)
  | none => Json.nan

/-!
## Entity Extractor (`lottieColorUtils.ts`)
-/

/-- A `ColorInfo` record as pushed by the extractor.  `color` is the raw
JS value stored in the record (the sources cast but do not convert). -/
structure ColorInfo where
  id : String
  type : String
  path : List Key
  color : Json

/-- A `ColorLayerInfo` record.  `name` and `layerType` hold the raw JS
values `(l.nm as string) || 'Layer {index}'` and `l.ty`. -/
structure ColorLayerInfo where
  index : Nat
  name : Json
  layerType : Json
  colors : List ColorInfo

/-- The identifier template `layer-{layerIndex}-{role}-{counter}`. -/
def mkColorId (layerIndex : Nat) (role : String) (n : Nat) : String :=
  "layer-" ++ toString layerIndex ++ "-" ++ role ++ "-" ++ toString n

/-- View a JS value as an array (the `as unknown[]` casts followed by
`forEach` in the source only ever run on arrays; see the notes on the
individual extraction functions). -/
def asArr (j : Json) : Option (List Json) :=
  match j with
  | Json.arr xs => some xs
  | _ => none

/-- View a JS value as a string. -/
def asStr (j : Json) : Option String :=
  match j with
  | Json.str s => some s
  | _ => none

/-- The color value pushed for a fill/stroke node:
`k.length >= 4 ? k : [k[0], k[1], k[2], 1]`. -/
def colorOfK (k : Json) : Json :=
  let len4 : Bool :=
    match k with
    | Json.arr xs => decide (4 ≤ xs.length)
    | Json.str s => decide (4 ≤ s.length)
    | _ => false
  if len4 then k else Json.arr [getIdx k 0, getIdx k 1, getIdx k 2, Json.num 1]

theorem sizeOf_lookupField (fs : List (String × Json)) (key : String) :
    sizeOf (lookupField fs key) ≤ sizeOf fs := by
  induction fs with
  | nil => simp [lookupField, Json.undefined.sizeOf_spec]
  | cons hd tl ih =>
      obtain ⟨k, v⟩ := hd
      simp only [lookupField]
      split
      · simp; omega
      · have := ih
        simp; omega

theorem sizeOf_getF (j : Json) (key : String) : sizeOf (getF j key) ≤ sizeOf j := by
  cases j <;> simp [getF, Json.undefined.sizeOf_spec] <;> first
    | omega
    | · have := sizeOf_lookupField (by assumption) key
        omega

theorem asArr_eq_some (j : Json) (xs : List Json) : asArr j = some xs ↔ j = Json.arr xs := by
  cases j <;> simp [asArr]

theorem asStr_eq_some (j : Json) (s : String) : asStr j = some s ↔ j = Json.str s := by
  cases j <;> simp [asStr]

/-- `extractShapeColors(shapes, layerIndex, colors, basePath)` with the
`forEach` position made explicit as `shapeIndex`.  For each shape node,
in source order: recurse into a group's `it` children, then push a fill,
then push a stroke; the occurrence counter of each pushed identifier is
`colors.length` at push time.  (A truthy non-array `it` makes the source
throw at `forEach`; such nodes are skipped here and excluded from the
theorems' domains by the resolution hypotheses.) -/
def extractShapeColors (shapes : List Json) (layerIndex shapeIndex : Nat)
    (colors : List ColorInfo) (basePath : List Key) : List ColorInfo :=
  match shapes with
  | [] => colors
  | sh :: rest =>
      let currentPath := basePath ++ [Key.num shapeIndex]
      let colors1 :=
        if isStrVal (getF sh "ty") "gr" && truthy (getF sh "it") then
          match h : asArr (getF sh "it") with
          | some its =>
              extractShapeColors its layerIndex 0 colors (currentPath ++ [Key.str "it"])
          | none => colors
        else colors
      let colors2 :=
        if isStrVal (getF sh "ty") "fl" then
          let k := optGet (getF sh "c") "k"
          if hasLen3 k then
            colors1 ++ [⟨mkColorId layerIndex "fill" colors1.length, "fill",
              currentPath ++ [Key.str "c", Key.str "k"], colorOfK k⟩]
          else colors1
        else colors1
      let colors3 :=
        if isStrVal (getF sh "ty") "st" then
          let k := optGet (getF sh "c") "k"
          if hasLen3 k then
            colors2 ++ [⟨mkColorId layerIndex "stroke" colors2.length, "stroke",
              currentPath ++ [Key.str "c", Key.str "k"], colorOfK k⟩]
          else colors2
        else colors2
      extractShapeColors rest layerIndex (shapeIndex + 1) colors3 basePath
termination_by sizeOf shapes
decreasing_by
  all_goals first
    | ((have h1 : sizeOf (getF sh "it") ≤ sizeOf sh := sizeOf_getF sh "it"
        rw [asArr_eq_some] at h
        rw [h] at h1
        simp at h1 ⊢) <;> omega)
    | (simp <;> omega)

/-- `(l.nm as string) || 'Layer {index}'`. -/
def layerName (l : Json) (index : Nat) : Json :=
  if truthy (getF l "nm") then getF l "nm" else Json.str ("Layer " ++ toString index)

/-- First step of the per-layer body of `extractAllColors`'s `forEach`:
the text-layer color (`ty === 5`, first document-data keyframe's `fc`). -/
def textStage (l : Json) (index : Nat) (colors : List ColorInfo) : List ColorInfo :=
  if isNumVal (getF l "ty") 5 then
    let t := getF l "t"
    let d := optGet t "d"
    let k := optGet d "k"
    let firstKey := optIdx k 0
    let s := optGet firstKey "s"
    let fc := optGet s "fc"
    if hasLen3 fc then
      colors ++ [⟨"layer-" ++ toString index ++ "-text", "text",
        [Key.str "layers", Key.num index, Key.str "t", Key.str "d", Key.str "k",
          Key.num 0, Key.str "s", Key.str "fc"],
        Json.arr [getIdx fc 0, getIdx fc 1, getIdx fc 2, Json.num 1]⟩]
    else colors
  else colors

/-- Second step: shape-layer colors (`ty === 4`). -/
def shapeStage (l : Json) (index : Nat) (colors : List ColorInfo) : List ColorInfo :=
  if isNumVal (getF l "ty") 4 && truthy (getF l "shapes") then
    match asArr (getF l "shapes") with
    | some ss =>
        extractShapeColors ss index 0 colors [Key.str "layers", Key.num index, Key.str "shapes"]
    | none => colors
  else colors

/-- Third step: the solid-layer background color (`ty === 1`, any string
`sc`, positional parse of fixed character positions). -/
def solidStage (l : Json) (index : Nat) (colors : List ColorInfo) : List ColorInfo :=
  if isNumVal (getF l "ty") 1 && isStringType (getF l "sc") then
    match asStr (getF l "sc") with
    | some hex =>
        colors ++ [⟨"layer-" ++ toString index ++ "-solid", "solid",
          [Key.str "layers", Key.num index, Key.str "sc"],
          Json.arr [solidChannel hex 1 3, solidChannel hex 3 5, solidChannel hex 5 7,
            Json.num 1]⟩]
    | none => colors
  else colors

/-- The per-layer body of `extractAllColors`'s `forEach`: text color,
then shape colors, then solid background color, accumulated in the
source's `colors` array order. -/
def extractLayerColors (l : Json) (index : Nat) : List ColorInfo :=
  solidStage l index (shapeStage l index (textStage l index []))

/-- The `forEach` over `data.layers`: a layer contributes a
`ColorLayerInfo` only when it produced at least one color. -/
def goLayers : List Json → Nat → List ColorLayerInfo
  | [], _ => []
  | l :: rest, index =>
      let colors := extractLayerColors l index
      (if colors.length > 0 then
        [⟨index, layerName l index, getF l "ty", colors⟩]
      else []) ++ goLayers rest (index + 1)

/-- `extractAllColors(animationData)`.  A falsy `layers` yields the
empty enumeration; a truthy non-array `layers` makes the source throw at
`forEach` and is likewise outside the modelled domain (mapped to the
empty enumeration). -/
def extractAllColors (animationData : Json) : List ColorLayerInfo :=
  match asArr (getF animationData "layers") with
  | some ls => goLayers ls 0
  | none => []

/-- Reference emission order for shape colors, following the spec's
description of the traversal: document order, depth-first through
groups (a group's children are emitted at the group's position, with
`it` appended to the path), recording role, path address and color
value.  Stated append-style (no accumulator) so that the ordering and
numbering content of `extractShapeColors` can be expressed against it. -/
def shapeEmissions (shapes : List Json) (shapeIndex : Nat) (basePath : List Key) :
    List (String × List Key × Json) :=
  match shapes with
  | [] => []
  | sh :: rest =>
      let currentPath := basePath ++ [Key.num shapeIndex]
      (if isStrVal (getF sh "ty") "gr" && truthy (getF sh "it") then
        match h : asArr (getF sh "it") with
        | some its => shapeEmissions its 0 (currentPath ++ [Key.str "it"])
        | none => []
      else [])
      ++ (if isStrVal (getF sh "ty") "fl" then
            let k := optGet (getF sh "c") "k"
            if hasLen3 k then
              [("fill", currentPath ++ [Key.str "c", Key.str "k"], colorOfK k)]
            else []
          else [])
      ++ (if isStrVal (getF sh "ty") "st" then
            let k := optGet (getF sh "c") "k"
            if hasLen3 k then
              [("stroke", currentPath ++ [Key.str "c", Key.str "k"], colorOfK k)]
            else []
          else [])
      ++ shapeEmissions rest (shapeIndex + 1) basePath
termination_by sizeOf shapes
decreasing_by
  all_goals first
    | ((have h1 : sizeOf (getF sh "it") ≤ sizeOf sh := sizeOf_getF sh "it"
        rw [asArr_eq_some] at h
        rw [h] at h1
        simp at h1 ⊢) <;> omega)
    | (simp <;> omega)

/-- Attach to an emitted node the identifier the extractor would give it
at overall position `n` of the layer's color list. -/
def decorate (layerIndex n : Nat) (e : String × List Key × Json) : ColorInfo :=
  ⟨mkColorId layerIndex e.1 n, e.1, e.2.1, e.2.2⟩

/-- Whether the patcher's final assignment lands inside its container:
objects accept any key, arrays accept numeric keys. -/
def keyFits (parent : Json) (k : Key) : Bool :=
  match parent, k with
  | Json.obj _, _ => true
  | Json.arr _, Key.num _ => true
  | _, _ => false

/-- A path address resolves in a document: the prefix walk reaches a
parent container that holds a value at the final key and accepts it. -/
def ResolvedPath (doc : Json) (p : List Key) : Prop :=
  ∃ init last parent orig, p = init ++ [last] ∧ getPath doc init = some parent ∧
    keyFits parent last = true ∧ jsRead parent last = some orig

/-- A color record's path address resolves in a document. -/
def ResolvedColor (doc : Json) (ci : ColorInfo) : Prop :=
  ResolvedPath doc ci.path

/-!
## Update Coordinator (`LottieAnimation.tsx`)
-/

/-- Commands pushed to the live player collaborator.  Player internals
(its per-layer element table) are abstracted: a command records the
`updateDocumentData` call the source would issue through
`renderer.elements[...]`. -/
inductive PlayerCmd where
  | updateText (layerIndex : Nat) (newText : String)
  | updateFillColor (layerIndex : Option ℚ) (fc : Json)

/-- The coordinator-owned state: the React `animationData` state, the
`animationDataRef` tracked copy, the remount key, and whether a player
instance is attached (`animationRef.current !== null`). -/
structure CoordState where
  animationData : Option Json
  animationDataRef : Option Json
  animationKey : Nat
  playerLoaded : Bool

/-- The document-data text path used by `handleUpdateText`. -/
def textPath (layerIndex : Nat) : List Key :=
  [Key.str "layers", Key.num layerIndex, Key.str "t", Key.str "d", Key.str "k",
    Key.num 0, Key.str "s", Key.str "t"]

/-- `handleUpdateText(layerIndex, newText)`: a no-op without a player;
otherwise push the text to the live element and patch the tracked
document copy at the same logical path.  `none` models an escaped
exception from the patcher. -/
def handleUpdateText (s : CoordState) (layerIndex : Nat) (newText : String) :
    Option (CoordState × List PlayerCmd) :=
  if s.playerLoaded then
    let cmds := [PlayerCmd.updateText layerIndex newText]
    match s.animationDataRef with
    | some d =>
        match updateColorInJson d (textPath layerIndex) (Json.str newText) with
        | some d' => some ({ s with animationDataRef := some d' }, cmds)
        | none => none
    | none => some (s, cmds)
  else some (s, [])

/-- Whether `needle` occurs at the start of `hay`. -/
def charsStartWith : List Char → List Char → Bool
  | [], _ => true
  | _ :: _, [] => false
  | c :: cs, d :: ds => c = d && charsStartWith cs ds

/-- Sliding-window substring test. -/
def charsContain (needle hay : List Char) : Bool :=
  charsStartWith needle hay ||
    match hay with
    | [] => false
    | _ :: rest => charsContain needle rest

/-- `colorId.includes('-text')`. -/
def includesDashText (colorId : String) : Bool :=
  charsContain "-text".toList colorId.toList

/-- Decimal digit test for `parseInt`'s default radix-10 parse. -/
def isDecDigit (c : Char) : Bool := '0' ≤ c && c ≤ '9'

/-- Value of a list of decimal digits, most significant first. -/
def decDigitsVal (ds : List Char) : Nat :=
  ds.foldl (fun acc c => 10 * acc + (c.toNat - 48)) 0

/-- `parseInt(s)` with radix 10: leading whitespace, optional sign,
longest prefix of decimal digits; `none` models `NaN`. -/
def parseIntDecJs (s : String) : Option ℚ :=
  let cs := s.toList.dropWhile isJsWhitespace
  let signed : ℤ × List Char :=
    match cs with
    | '-' :: rest => (-1, rest)
    | '+' :: rest => (1, rest)
    | _ => (1, cs)
  let digits := signed.2.takeWhile isDecDigit
  if digits.isEmpty then none
  else some ((signed.1 : ℚ) * (decDigitsVal digits : ℚ))

/-- `(newColor as LottieRGBA).slice(0, 3)`: defined on arrays and
strings; `.slice` on any other value throws (`none`). -/
def jsSlice3 (v : Json) : Option Json :=
  match v with
  | Json.arr xs => some (Json.arr (xs.take 3))
  | Json.str s => some (Json.str (String.mk (s.toList.take 3)))
  | _ => none

/-- `handleUpdateColor(colorId, path, newColor)`: a no-op without a
player; text colors go through the live-patch path (document-data
update plus a patch of the tracked copy), all other colors through the
full-reload path (patch the tracked copy, bump the remount key, replace
the document state).  `none` models an escaped exception.  The guard
`if (element?.updateDocumentData)` is modelled as taken (player
internals abstracted). -/
def handleUpdateColor (s : CoordState) (colorId : String) (path : List Key)
    (newColor : Json) : Option (CoordState × List PlayerCmd) :=
  if !s.playerLoaded then some (s, [])
  else if includesDashText colorId then
    let idx := parseIntDecJs ((colorId.splitOn "-").getD 1 "")
    match jsSlice3 newColor with
    | none => none
    | some fc =>
        let cmds := [PlayerCmd.updateFillColor idx fc]
        match s.animationDataRef with
        | some d =>
            match updateColorInJson d path newColor with
            | some d' => some ({ s with animationDataRef := some d' }, cmds)
            | none => none
        | none => some (s, cmds)
  else
    match s.animationDataRef.orElse (fun _ => s.animationData) with
    | none => some (s, [])
    | some sourceData =>
        match updateColorInJson sourceData path newColor with
        | none => none
        | some updated =>
            some ({ s with animationDataRef := some updated,
                           animationKey := s.animationKey + 1,
                           animationData := some updated }, [])

/-!
## Image replacement (`handleImageFileSelect`)
-/

/-- `toValidNumber(value, fallback)`: the value when it is a finite
number, the fallback otherwise (all modelled numbers are finite
rationals; `NaN` is a distinct constructor and falls back). -/
def toValidNumber (value : Json) (fallback : ℚ) : ℚ :=
  match value with
  | Json.num q => q
  | _ => fallback

/-- The core of `handleImageFileSelect` once the replacement image has
been read and its natural pixel size decoded (lines 343-359): clone the
document (identity on the value tree), locate the target asset, compute
the frame size from the original asset's `w`/`h` falling back to the
decoded natural size, re-encode through the contain-fit normalizer
(abstracted as the function `normalize` of the frame size; the source
image is fixed for the invocation), and overwrite the asset's payload,
reference, embedded flag and frame-size fields.  `Except.error` carries
the message of the corresponding early return; a truthy primitive asset
would make the source's property assignment throw (`TypeError`). -/
def replaceImageAsset (sourceData : Json) (assetIndex : Nat)
    (imageWidth imageHeight : ℚ) (normalize : ℚ → ℚ → String) : Except String Json :=
  match sourceData, getF sourceData "assets" with
  | Json.obj rootFs, Json.arr assets =>
      let targetAsset := assets.getD assetIndex Json.undefined
      if !truthy targetAsset then Except.error "置き換え対象の画像が見つかりません"
      else
        match targetAsset with
        | Json.obj fs =>
            let frameWidth := toValidNumber (lookupField fs "w") imageWidth
            let frameHeight := toValidNumber (lookupField fs "h") imageHeight
            let fs1 := setField fs "p" (Json.str (normalize frameWidth frameHeight))
            let fs2 := setField fs1 "u" (Json.str "")
            let fs3 := setField fs2 "e" (Json.num 1)
            let fs4 := setField fs3 "w" (Json.num frameWidth)
            let fs5 := setField fs4 "h" (Json.num frameHeight)
            Except.ok (Json.obj (setField rootFs "assets"
              (Json.arr (assets.set assetIndex (Json.obj fs5)))))
        | _ => Except.error "TypeError"
  | _, _ => Except.error "画像アセットが見つかりません"

/-!
## Patcher lemmas
-/

theorem lookupField_setField (fs : List (String × Json)) (key : String) (v : Json) :
    lookupField (setField fs key v) key = v := by
  induction fs with
  | nil => simp [setField, lookupField]
  | cons hd tl ih =>
      obtain ⟨k, w⟩ := hd
      by_cases hk : k = key
      · simp [setField, hk, lookupField]
      · simp [setField, hk, lookupField, ih]

theorem getD_arrSet (xs : List Json) (i : Nat) (v : Json) :
    (arrSet xs i v).getD i Json.undefined = v := by
  unfold arrSet
  split
  · next h => simp [List.getD_eq_getElem?_getD, List.getElem?_set_self h]
  · next h =>
      have h1 : xs.length ≤ i := Nat.le_of_not_lt h
      rw [List.getD_eq_getElem?_getD, List.append_assoc,
        List.getElem?_append_right h1,
        List.getElem?_append_right (by simp)]
      simp

theorem getVal_obj (fs : List (String × Json)) (k : Key) :
    getVal (Json.obj fs) k = lookupField fs (keyToString k) := by
  cases k <;> rfl

theorem jsWrite_read (parent : Json) (k : Key) (v : Json) (h : keyFits parent k = true) :
    ∃ p', jsWrite parent k v = some p' ∧ jsRead p' k = some v := by
  cases parent <;> simp [keyFits] at h
  case obj fs =>
      refine ⟨Json.obj (setField fs (keyToString k) v), rfl, ?_⟩
      simp [jsRead, getVal_obj, lookupField_setField]
  case arr xs =>
      cases k with
      | str s => simp at h
      | num i =>
          refine ⟨Json.arr (arrSet xs i v), rfl, ?_⟩
          simp only [jsRead, getVal, getIdx, getD_arrSet]

/-- A value reachable by reads from a string (or from `undefined`) is
itself a string or `undefined`. -/
theorem getVal_str_strish (s : String) (k : Key) :
    (∃ c, getVal (Json.str s) k = Json.str c) ∨ getVal (Json.str s) k = Json.undefined := by
  cases k with
  | str key => exact Or.inr rfl
  | num i =>
      cases h : s.data[i]? with
      | some c => exact Or.inl ⟨String.mk [c], by simp [getVal, getIdx, h]⟩
      | none => exact Or.inr (by simp [getVal, getIdx, h])

theorem getVal_prim_undefined (j : Json) (k : Key)
    (h : j = Json.nan ∨ (∃ b, j = Json.bool b) ∨ ∃ q, j = Json.num q) :
    getVal j k = Json.undefined := by
  rcases h with rfl | ⟨b, rfl⟩ | ⟨q, rfl⟩ <;> cases k <;> rfl

theorem getPath_strish (rest : List Key) :
    ∀ (j parent : Json), ((∃ s, j = Json.str s) ∨ j = Json.undefined) →
      getPath j rest = some parent →
      (∃ s, parent = Json.str s) ∨ parent = Json.undefined := by
  induction rest with
  | nil =>
      intro j parent hj hg
      simp only [getPath, Option.some.injEq] at hg
      subst hg; exact hj
  | cons k rs ih =>
      intro j parent hj hg
      rcases hj with ⟨s, rfl⟩ | rfl
      · have hread : jsRead (Json.str s) k = some (getVal (Json.str s) k) := rfl
        rw [getPath, hread, Option.some_bind] at hg
        exact ih _ parent (getVal_str_strish s k) hg
      · simp [getPath, jsRead] at hg

/-- If the walk succeeds from `d` into a resolvable tail whose parent
fits its key, the first step's container accepts its key (writes back
successfully). -/
theorem keyFits_of_walk (d : Json) (k : Key) (child parent : Json) (rest : List Key)
    (last : Key) (orig : Json) (hjk : jsRead d k = some child)
    (hg : getPath child rest = some parent) (hr : jsRead parent last = some orig)
    (hf : keyFits parent last = true) : keyFits d k = true := by
  have hparent_not_strish :
      ¬ ((∃ s, parent = Json.str s) ∨ parent = Json.undefined) := by
    rintro (⟨s, rfl⟩ | rfl)
    · simp [keyFits] at hf
    · simp [jsRead] at hr
  cases d with
  | null => simp [jsRead] at hjk
  | undefined => simp [jsRead] at hjk
  | obj fs => simp [keyFits]
  | arr xs =>
      cases k with
      | num i => simp [keyFits]
      | str s =>
          exfalso
          have hc : child = Json.undefined := by
            simp [jsRead, getVal, getF] at hjk
            exact hjk.symm
          subst hc
          exact hparent_not_strish (getPath_strish rest _ parent (Or.inr rfl) hg)
  | nan =>
      exfalso
      have hc : child = Json.undefined := by
        simp only [jsRead, Option.some.injEq] at hjk
        rw [← hjk]; exact getVal_prim_undefined _ k (Or.inl rfl)
      subst hc
      exact hparent_not_strish (getPath_strish rest _ parent (Or.inr rfl) hg)
  | bool b =>
      exfalso
      have hc : child = Json.undefined := by
        simp only [jsRead, Option.some.injEq] at hjk
        rw [← hjk]; exact getVal_prim_undefined _ k (Or.inr (Or.inl ⟨b, rfl⟩))
      subst hc
      exact hparent_not_strish (getPath_strish rest _ parent (Or.inr rfl) hg)
  | num q =>
      exfalso
      have hc : child = Json.undefined := by
        simp only [jsRead, Option.some.injEq] at hjk
        rw [← hjk]; exact getVal_prim_undefined _ k (Or.inr (Or.inr ⟨q, rfl⟩))
      subst hc
      exact hparent_not_strish (getPath_strish rest _ parent (Or.inr rfl) hg)
  | str st =>
      exfalso
      have hc : (∃ c, child = Json.str c) ∨ child = Json.undefined := by
        simp only [jsRead, Option.some.injEq] at hjk
        rw [← hjk]; exact getVal_str_strish st k
      exact hparent_not_strish (getPath_strish rest _ parent hc hg)

theorem patchAt_resolved (init : List Key) :
    ∀ (d parent orig : Json) (last : Key) (v : Json),
      getPath d init = some parent → jsRead parent last = some orig →
      keyFits parent last = true →
      ∃ d', patchAt d (init ++ [last]) v = some d' ∧
        getPath d' (init ++ [last]) = some (truncValue orig v) := by
  induction init with
  | nil =>
      intro d parent orig last v hg hr hf
      simp only [getPath, Option.some.injEq] at hg
      subst hg
      obtain ⟨p', hw, hrd⟩ := jsWrite_read d last (truncValue orig v) hf
      refine ⟨p', ?_, ?_⟩
      · simp [patchAt, hr, hw]
      · simp [getPath, hrd]
  | cons k rest ih =>
      intro d parent orig last v hg hr hf
      rw [getPath] at hg
      cases hjk : jsRead d k with
      | none => rw [hjk, Option.none_bind] at hg; exact absurd hg (by simp)
      | some child =>
          rw [hjk, Option.some_bind] at hg
          obtain ⟨d'', hp, hgp⟩ := ih child parent orig last v hg hr hf
          have hkf : keyFits d k = true :=
            keyFits_of_walk d k child parent rest last orig hjk hg hr hf
          obtain ⟨p', hw, hrd⟩ := jsWrite_read d k d'' hkf
          refine ⟨p', ?_, ?_⟩
          · rw [List.cons_append, patchAt, hjk, Option.some_bind]
            cases rest with
            | nil => simp only [List.nil_append] at hp ⊢; rw [hp, Option.some_bind, hw]
            | cons a as =>
                simp only [List.cons_append] at hp ⊢
                rw [hp, Option.some_bind, hw]
          · rw [List.cons_append, getPath, hrd, Option.some_bind, hgp]

theorem patchAt_none_of_getPath_none (init : List Key) :
    ∀ (d : Json) (last : Key) (v : Json),
      getPath d (init ++ [last]) = none → patchAt d (init ++ [last]) v = none := by
  induction init with
  | nil =>
      intro d last v hg
      simp only [List.nil_append, getPath] at hg ⊢
      cases hjk : jsRead d last with
      | none => simp [patchAt, hjk]
      | some c => rw [hjk, Option.some_bind] at hg; simp [getPath] at hg
  | cons k rest ih =>
      intro d last v hg
      rw [List.cons_append, getPath] at hg
      cases hjk : jsRead d k with
      | none => simp [patchAt, hjk]
      | some child =>
          rw [hjk, Option.some_bind] at hg
          have hp := ih child last v hg
          rw [List.cons_append, patchAt, hjk, Option.some_bind]
          cases rest with
          | nil => simp only [List.nil_append] at hp ⊢; rw [hp, Option.none_bind]
          | cons a as =>
              simp only [List.cons_append] at hp ⊢
              rw [hp, Option.none_bind]

theorem updateColorInJson_eq_patchAt (d : Json) (p : List Key) (v : Json) (hp : p ≠ []) :
    updateColorInJson d p v = patchAt d p v := by
  simp [updateColorInJson, List.isEmpty_iff, hp]

/-- **C2.**  For every document and resolvable path (the walk reaches a
parent container holding a value at the final key, and the key fits the
container), `patch` succeeds; if the existing value at the target is an
array of length exactly 3 and the new value is an array, only the new
value's first three elements are stored at that location; for any other
existing-value shape the new value replaces it verbatim. -/
theorem c2_patch_arity (d : Json) (init : List Key) (last : Key) (parent orig v : Json)
    (hinit : getPath d init = some parent) (hfit : keyFits parent last = true)
    (horig : jsRead parent last = some orig) :
    ∃ d', updateColorInJson d (init ++ [last]) v = some d' ∧
      (∀ os vs, orig = Json.arr os → os.length = 3 → v = Json.arr vs →
        getPath d' (init ++ [last]) = some (Json.arr [vs.getD 0 Json.undefined,
          vs.getD 1 Json.undefined, vs.getD 2 Json.undefined])) ∧
      (¬ ((∃ os, orig = Json.arr os ∧ os.length = 3) ∧ ∃ vs, v = Json.arr vs) →
        getPath d' (init ++ [last]) = some v) := by
  obtain ⟨d', hp, hg⟩ := patchAt_resolved init d parent orig last v hinit horig hfit
  rw [← updateColorInJson_eq_patchAt d (init ++ [last]) v (by simp)] at hp
  refine ⟨d', hp, ?_, ?_⟩
  · intro os vs ho hlen hv
    subst ho; subst hv
    simpa [truncValue, hlen] using hg
  · intro hshape
    have htv : truncValue orig v = v := by
      rcases orig with _ | _ | _ | b | q | st | os | fs <;>
        rcases v with _ | _ | _ | b' | q' | st' | vs | fs' <;>
        simp only [truncValue]
      have hne : os.length ≠ 3 := fun h => hshape ⟨⟨os, rfl, h⟩, vs, rfl⟩
      simp [hne]
    rwa [htv] at hg

/-- **C2, witness.**  Patching `{c: {k: [0,0,0]}}` at path `c.k` with
`[1,2,3,4]` stores `[1,2,3]`. -/
theorem c2_patch_arity_witness :
    ∃ d', updateColorInJson
        (Json.obj [("c", Json.obj [("k", Json.arr [Json.num 0, Json.num 0, Json.num 0])])])
        [Key.str "c", Key.str "k"] (Json.arr [Json.num 1, Json.num 2, Json.num 3, Json.num 4])
        = some d' ∧
      getPath d' [Key.str "c", Key.str "k"]
        = some (Json.arr [Json.num 1, Json.num 2, Json.num 3]) := by
  obtain ⟨d', h1, h2, _⟩ := c2_patch_arity
    (Json.obj [("c", Json.obj [("k", Json.arr [Json.num 0, Json.num 0, Json.num 0])])])
    [Key.str "c"] (Key.str "k")
    (Json.obj [("k", Json.arr [Json.num 0, Json.num 0, Json.num 0])])
    (Json.arr [Json.num 0, Json.num 0, Json.num 0])
    (Json.arr [Json.num 1, Json.num 2, Json.num 3, Json.num 4])
    rfl rfl rfl
  exact ⟨d', h1, h2 _ _ rfl rfl rfl⟩

/-- **C3, counterexample.**  The final key `"b"` is absent from the
object the path indexes, yet `patch({a: {}}, ["a","b"], 5)` does not
signal an error: it silently creates the location and returns
`{a: {b: 5}}`. -/
theorem c3_patch_unresolved_cex :
    lookupField ([] : List (String × Json)) "b" = Json.undefined ∧
    updateColorInJson (Json.obj [("a", Json.obj [])]) [Key.str "a", Key.str "b"] (Json.num 5)
      = some (Json.obj [("a", Json.obj [("b", Json.num 5)])]) :=
  ⟨rfl, rfl⟩

/-- **C3 (amended).**  `patch` throws whenever the path fails to resolve
by successive reads — in particular when an intermediate key is absent,
so that the walk reads a property of `undefined`; but an absent *final*
key whose parent resolves to an object is not an error: the location is
silently created with the new value. -/
theorem c3_patch_unresolved (d : Json) (init : List Key) (last : Key) (v : Json) :
    (getPath d (init ++ [last]) = none → updateColorInJson d (init ++ [last]) v = none) ∧
    (∀ fs, getPath d init = some (Json.obj fs) →
      lookupField fs (keyToString last) = Json.undefined →
      ∃ d', updateColorInJson d (init ++ [last]) v = some d' ∧
        getPath d' (init ++ [last]) = some v) := by
  constructor
  · intro hg
    rw [updateColorInJson_eq_patchAt d (init ++ [last]) v (by simp)]
    exact patchAt_none_of_getPath_none init d last v hg
  · intro fs hinit habs
    have horig : jsRead (Json.obj fs) last = some Json.undefined := by
      simp [jsRead, getVal_obj, habs]
    obtain ⟨d', hp, hg⟩ := patchAt_resolved init d (Json.obj fs) Json.undefined last v
      hinit horig (by simp [keyFits])
    rw [← updateColorInJson_eq_patchAt d (init ++ [last]) v (by simp)] at hp
    exact ⟨d', hp, by simpa [truncValue] using hg⟩

/-- **C3, witness.**  Both halves at concrete inputs: walking
`x.y` in `{}` throws (the read of `y` on `undefined`), and patching
`{a: {}}` at `a.b` creates `b`. -/
theorem c3_patch_unresolved_witness :
    updateColorInJson (Json.obj []) [Key.str "x", Key.str "y"] (Json.num 1) = none ∧
    ∃ d', updateColorInJson (Json.obj [("a", Json.obj [])]) [Key.str "a", Key.str "b"]
        (Json.num 7) = some d' ∧
      getPath d' [Key.str "a", Key.str "b"] = some (Json.num 7) := by
  constructor
  · exact (c3_patch_unresolved (Json.obj []) [Key.str "x"] (Key.str "y") (Json.num 1)).1 rfl
  · exact (c3_patch_unresolved (Json.obj [("a", Json.obj [])]) [Key.str "a"] (Key.str "b")
      (Json.num 7)).2 [] rfl rfl

/-!
## Color codec lemmas
-/

theorem toList_mk (l : List Char) : (String.mk l).toList = l := rfl

theorem hexTail_mk_hash (l : List Char) : hexTail (String.mk ('#' :: l)) = l := rfl

theorem hexDigitChar_isHex : ∀ k : Nat, k < 16 → isHexDigitCI (hexDigitChar k) = true := by
  decide

theorem hexVal_hexDigitChar : ∀ k : Nat, k < 16 → hexVal (hexDigitChar k) = k := by
  decide

theorem hexDigitChar_isLower : ∀ k : Nat, k < 16 → isLowerHexDigit (hexDigitChar k) = true := by
  decide

theorem natToHexChars_lt (n : Nat) (h : n < 16) : natToHexChars n = [hexDigitChar n] := by
  unfold natToHexChars
  simp [h]

theorem natToHexChars_two (n : Nat) (h1 : 16 ≤ n) (h2 : n < 256) :
    natToHexChars n = [hexDigitChar (n / 16), hexDigitChar (n % 16)] := by
  rw [natToHexChars]
  rw [if_neg (by omega)]
  rw [natToHexChars_lt _ (by omega)]
  simp

theorem padStart2_jsIntToString16 (i : ℤ) (h0 : 0 ≤ i) (h255 : i ≤ 255) :
    padStart2 (jsIntToString16 i) = byteChars i.toNat := by
  unfold jsIntToString16
  rw [if_neg (by omega)]
  have hlt : i.toNat < 256 := by omega
  by_cases h16 : i.toNat < 16
  · rw [natToHexChars_lt _ h16]
    unfold padStart2
    rw [if_pos (by simp)]
    have hd : i.toNat / 16 = 0 := Nat.div_eq_of_lt h16
    have hm : i.toNat % 16 = i.toNat := Nat.mod_eq_of_lt h16
    simp [byteChars, hd, hm]
    rfl
  · rw [natToHexChars_two _ (by omega) hlt]
    unfold padStart2
    rw [if_neg (by simp)]
    rfl

theorem jsRound_bounds (x : ℚ) (h0 : 0 ≤ x) (h1 : x ≤ 1) :
    0 ≤ jsRound (x * 255) ∧ jsRound (x * 255) ≤ 255 := by
  unfold jsRound
  constructor
  · exact Int.le_floor.mpr (by push_cast; linarith)
  · have hlt : jsRound (x * 255) < 256 := by
      unfold jsRound
      exact Int.floor_lt.mpr (by push_cast; linarith)
    unfold jsRound at hlt
    omega

theorem hexPairVal_byte (n : Nat) (h : n < 256) :
    hexPairVal (hexDigitChar (n / 16)) (hexDigitChar (n % 16)) = (n : ℚ) := by
  unfold hexPairVal
  rw [hexVal_hexDigitChar _ (by omega), hexVal_hexDigitChar _ (by omega)]
  norm_cast
  omega

/-- **C4.**  For every normalized RGBA quad with all components in
`[0,1]`, `fromHex(toHex(rgba))` returns the input channels rounded to
the nearest 1/255 (`Math.round` semantics: half rounds up), with alpha
reset to exactly 1 — so the round-trip is exact on alpha only for
alpha-1 inputs. -/
theorem c4_codec_roundtrip (r g b a : ℚ)
    (hr0 : 0 ≤ r) (hr1 : r ≤ 1) (hg0 : 0 ≤ g) (hg1 : g ≤ 1)
    (hb0 : 0 ≤ b) (hb1 : b ≤ 1) (ha0 : 0 ≤ a) (ha1 : a ≤ 1) :
    hexToLottieRGBA (lottieRGBAToHex (r, g, b, a)) =
      ((jsRound (r * 255) : ℚ) / 255, (jsRound (g * 255) : ℚ) / 255,
        (jsRound (b * 255) : ℚ) / 255, 1) := by
  obtain ⟨hr0', hr255⟩ := jsRound_bounds r hr0 hr1
  obtain ⟨hg0', hg255⟩ := jsRound_bounds g hg0 hg1
  obtain ⟨hb0', hb255⟩ := jsRound_bounds b hb0 hb1
  have e1 := padStart2_jsIntToString16 (jsRound (r * 255)) hr0' hr255
  have e2 := padStart2_jsIntToString16 (jsRound (g * 255)) hg0' hg255
  have e3 := padStart2_jsIntToString16 (jsRound (b * 255)) hb0' hb255
  have hn1 : (jsRound (r * 255)).toNat < 256 := by omega
  have hn2 : (jsRound (g * 255)).toNat < 256 := by omega
  have hn3 : (jsRound (b * 255)).toNat < 256 := by omega
  unfold lottieRGBAToHex
  simp only at e1 e2 e3 ⊢
  rw [e1, e2, e3]
  have hlist : ('#' :: byteChars (jsRound (r * 255)).toNat)
        ++ byteChars (jsRound (g * 255)).toNat ++ byteChars (jsRound (b * 255)).toNat
      = '#' :: (byteChars (jsRound (r * 255)).toNat ++ byteChars (jsRound (g * 255)).toNat
          ++ byteChars (jsRound (b * 255)).toNat) := by
    simp
  rw [hlist]
  simp only [byteChars, List.cons_append, List.nil_append]
  unfold hexToLottieRGBA
  rw [hexTail_mk_hash]
  have ha1 := hexDigitChar_isHex ((jsRound (r * 255)).toNat / 16) (by omega)
  have ha2 := hexDigitChar_isHex ((jsRound (r * 255)).toNat % 16) (by omega)
  have ha3 := hexDigitChar_isHex ((jsRound (g * 255)).toNat / 16) (by omega)
  have ha4 := hexDigitChar_isHex ((jsRound (g * 255)).toNat % 16) (by omega)
  have ha5 := hexDigitChar_isHex ((jsRound (b * 255)).toNat / 16) (by omega)
  have ha6 := hexDigitChar_isHex ((jsRound (b * 255)).toNat % 16) (by omega)
  simp only [List.all_cons, List.all_nil, ha1, ha2, ha3, ha4, ha5, ha6, Bool.and_self,
    Bool.and_true, if_true]
  rw [hexPairVal_byte _ hn1, hexPairVal_byte _ hn2, hexPairVal_byte _ hn3]
  rw [show (((jsRound (r * 255)).toNat : ℚ)) = ((jsRound (r * 255) : ℤ) : ℚ) by
        exact_mod_cast congrArg (fun z : ℤ => (z : ℚ)) (Int.toNat_of_nonneg hr0'),
      show (((jsRound (g * 255)).toNat : ℚ)) = ((jsRound (g * 255) : ℤ) : ℚ) by
        exact_mod_cast congrArg (fun z : ℤ => (z : ℚ)) (Int.toNat_of_nonneg hg0'),
      show (((jsRound (b * 255)).toNat : ℚ)) = ((jsRound (b * 255) : ℤ) : ℚ) by
        exact_mod_cast congrArg (fun z : ℤ => (z : ℚ)) (Int.toNat_of_nonneg hb0')]

/-- **C4, witness.**  Round-tripping `(1/2, 0, 1, 1)`:
`Math.round(127.5) = 128`, so the result is `(128/255, 0, 1, 1)`. -/
theorem c4_codec_roundtrip_witness :
    hexToLottieRGBA (lottieRGBAToHex (1 / 2, 0, 1, 1)) = (128 / 255, 0, 1, 1) := by
  have h := c4_codec_roundtrip (1 / 2) 0 1 1 (by norm_num) (by norm_num) (by norm_num)
    (by norm_num) (by norm_num) (by norm_num) (by norm_num) (by norm_num)
  rw [h]
  have h1 : jsRound ((1 : ℚ) / 2 * 255) = 128 := by
    unfold jsRound
    rw [show ((1 : ℚ) / 2 * 255 + 1 / 2) = ((128 : ℤ) : ℚ) by norm_num]
    exact Int.floor_intCast 128
  have h2 : jsRound ((0 : ℚ) * 255) = 0 := by
    unfold jsRound
    rw [show ((0 : ℚ) * 255 + 1 / 2) = 1 / 2 by norm_num]
    rw [Int.floor_eq_iff]
    norm_num
  have h3 : jsRound ((1 : ℚ) * 255) = 255 := by
    unfold jsRound
    rw [show ((1 : ℚ) * 255 + 1 / 2) = 511 / 2 by norm_num]
    rw [Int.floor_eq_iff]
    norm_num
  rw [h1, h2, h3]
  norm_num

/-- **C5.**  `fromHex` accepts an optional leading `#` followed by
exactly six hex digits, case-insensitively: every such string yields a
quad with alpha exactly 1 and RGB equal to the parsed hex byte values
divided by 255; every string of any other shape (wrong length, invalid
characters) yields exactly `[0,0,0,1]` without raising an error. -/
theorem c5_fromHex_shapes (s : String) :
    (∀ c1 c2 c3 c4 c5 c6, hexTail s = [c1, c2, c3, c4, c5, c6] →
      [c1, c2, c3, c4, c5, c6].all isHexDigitCI = true →
      hexToLottieRGBA s =
        (hexPairVal c1 c2 / 255, hexPairVal c3 c4 / 255, hexPairVal c5 c6 / 255, 1)) ∧
    (validHexShape s = false → hexToLottieRGBA s = (0, 0, 0, 1)) := by
  constructor
  · intro c1 c2 c3 c4 c5 c6 hcs hall
    unfold hexToLottieRGBA
    rw [hcs]
    simp [hall]
  · intro hval
    unfold hexToLottieRGBA
    cases hcs : hexTail s with
    | nil => simp
    | cons a t1 =>
    cases t1 with
    | nil => simp
    | cons b t2 =>
    cases t2 with
    | nil => simp
    | cons c t3 =>
    cases t3 with
    | nil => simp
    | cons d t4 =>
    cases t4 with
    | nil => simp
    | cons e t5 =>
    cases t5 with
    | nil => simp
    | cons f t6 =>
    cases t6 with
    | cons g t7 => simp
    | nil =>
        have hall : ([a, b, c, d, e, f].all isHexDigitCI) = false := by
          have h' := hval
          unfold validHexShape at h'
          rw [hcs] at h'
          simpa using h'
        simp [hall]

/-- **C5, witness.**  `#A1b2c3` (mixed case, leading `#`) parses to
`(161/255, 178/255, 195/255, 1)`; the 5-digit string `12345` falls back
to the default color. -/
theorem c5_fromHex_shapes_witness :
    hexToLottieRGBA "#A1b2c3" = (161 / 255, 178 / 255, 195 / 255, 1) ∧
    hexToLottieRGBA "12345" = (0, 0, 0, 1) := by
  constructor
  · have h := (c5_fromHex_shapes "#A1b2c3").1 'A' '1' 'b' '2' 'c' '3' rfl (by decide)
    rw [h, show hexPairVal 'A' '1' = ((161 : ℕ) : ℚ) from rfl,
      show hexPairVal 'b' '2' = ((178 : ℕ) : ℚ) from rfl,
      show hexPairVal 'c' '3' = ((195 : ℕ) : ℚ) from rfl]
    norm_num [Prod.ext_iff]
  · exact (c5_fromHex_shapes "12345").2 (by decide)

/-- **C6, counterexample.**  `toHex` does not clamp out-of-range
channels: on input `(2, 0, 0, 1)` it rounds `2*255` to `510`, whose hex
rendering `1fe` is three digits long, so the result `#1fe0000` is not a
well-formed 6-hex-digit color string. -/
theorem c6_toHex_total_cex :
    validHexShape (lottieRGBAToHex (2, 0, 0, 1)) = false := by
  have h510 : jsRound ((2 : ℚ) * 255) = 510 := by
    unfold jsRound
    rw [show ((2 : ℚ) * 255 + 1 / 2) = 1021 / 2 by norm_num]
    rw [Int.floor_eq_iff]
    norm_num
  have h0 : jsRound ((0 : ℚ) * 255) = 0 := by
    unfold jsRound
    rw [show ((0 : ℚ) * 255 + 1 / 2) = 1 / 2 by norm_num]
    rw [Int.floor_eq_iff]
    norm_num
  have e510 : natToHexChars 510 = ['1', 'f', 'e'] := by
    rw [natToHexChars, if_neg (by norm_num)]
    rw [show (510 : ℕ) / 16 = 31 by norm_num, show (510 : ℕ) % 16 = 14 by norm_num]
    rw [natToHexChars, if_neg (by norm_num)]
    rw [show (31 : ℕ) / 16 = 1 by norm_num, show (31 : ℕ) % 16 = 15 by norm_num]
    rw [natToHexChars_lt 1 (by norm_num)]
    rfl
  have e0 : natToHexChars 0 = ['0'] := by
    rw [natToHexChars_lt 0 (by norm_num)]
    rfl
  unfold lottieRGBAToHex
  simp only
  rw [h510, h0]
  unfold jsIntToString16
  rw [if_neg (by norm_num), if_neg (by norm_num)]
  rw [show ((510 : ℤ)).toNat = 510 from rfl, show ((0 : ℤ)).toNat = 0 from rfl]
  rw [e510, e0]
  rfl

/-- **C6 (amended).**  `toHex` renders each channel as
`Math.round(value*255)` in zero-padded two-digit lowercase hex after a
`#`, with no alpha channel; it is pure and total over all rational
inputs, and for channels in `[0,1]` the output is `#` followed by
exactly six lowercase hex digits.  Channels outside `[0,1]` are not
rejected — but neither are they clamped: the rounding step passes the
out-of-range magnitude through, and the output can fail to be a
well-formed 6-hex-digit color string (see the counterexample). -/
theorem c6_toHex_shape (r g b a : ℚ)
    (hr0 : 0 ≤ r) (hr1 : r ≤ 1) (hg0 : 0 ≤ g) (hg1 : g ≤ 1)
    (hb0 : 0 ≤ b) (hb1 : b ≤ 1) :
    lottieRGBAToHex (r, g, b, a) =
      String.mk ('#' :: (byteChars (jsRound (r * 255)).toNat
        ++ byteChars (jsRound (g * 255)).toNat ++ byteChars (jsRound (b * 255)).toNat)) ∧
    validHexShape (lottieRGBAToHex (r, g, b, a)) = true ∧
    (hexTail (lottieRGBAToHex (r, g, b, a))).all isLowerHexDigit = true := by
  obtain ⟨hr0', hr255⟩ := jsRound_bounds r hr0 hr1
  obtain ⟨hg0', hg255⟩ := jsRound_bounds g hg0 hg1
  obtain ⟨hb0', hb255⟩ := jsRound_bounds b hb0 hb1
  have e1 := padStart2_jsIntToString16 (jsRound (r * 255)) hr0' hr255
  have e2 := padStart2_jsIntToString16 (jsRound (g * 255)) hg0' hg255
  have e3 := padStart2_jsIntToString16 (jsRound (b * 255)) hb0' hb255
  have hmk : lottieRGBAToHex (r, g, b, a) =
      String.mk ('#' :: (byteChars (jsRound (r * 255)).toNat
        ++ byteChars (jsRound (g * 255)).toNat ++ byteChars (jsRound (b * 255)).toNat)) := by
    unfold lottieRGBAToHex
    simp only at e1 e2 e3 ⊢
    rw [e1, e2, e3]
    simp
  refine ⟨hmk, ?_, ?_⟩
  · rw [hmk]
    unfold validHexShape
    rw [hexTail_mk_hash]
    have ha1 := hexDigitChar_isHex ((jsRound (r * 255)).toNat / 16) (by omega)
    have ha2 := hexDigitChar_isHex ((jsRound (r * 255)).toNat % 16) (by omega)
    have ha3 := hexDigitChar_isHex ((jsRound (g * 255)).toNat / 16) (by omega)
    have ha4 := hexDigitChar_isHex ((jsRound (g * 255)).toNat % 16) (by omega)
    have ha5 := hexDigitChar_isHex ((jsRound (b * 255)).toNat / 16) (by omega)
    have ha6 := hexDigitChar_isHex ((jsRound (b * 255)).toNat % 16) (by omega)
    simp [byteChars, ha1, ha2, ha3, ha4, ha5, ha6]
  · rw [hmk, hexTail_mk_hash]
    have hl1 := hexDigitChar_isLower ((jsRound (r * 255)).toNat / 16) (by omega)
    have hl2 := hexDigitChar_isLower ((jsRound (r * 255)).toNat % 16) (by omega)
    have hl3 := hexDigitChar_isLower ((jsRound (g * 255)).toNat / 16) (by omega)
    have hl4 := hexDigitChar_isLower ((jsRound (g * 255)).toNat % 16) (by omega)
    have hl5 := hexDigitChar_isLower ((jsRound (b * 255)).toNat / 16) (by omega)
    have hl6 := hexDigitChar_isLower ((jsRound (b * 255)).toNat % 16) (by omega)
    simp [byteChars, hl1, hl2, hl3, hl4, hl5, hl6]

/-- **C6, witness.**  The in-range input `(1, 0, 1/2, 1)` produces a
well-formed 6-hex-digit color string. -/
theorem c6_toHex_shape_witness :
    validHexShape (lottieRGBAToHex (1, 0, 1 / 2, 1)) = true :=
  (c6_toHex_shape 1 0 (1 / 2) 1 (by norm_num) (by norm_num) (by norm_num) (by norm_num)
    (by norm_num) (by norm_num)).2.1

/-!
## Coordinator and image replacement
-/

/-- **C8.**  In the NoDocument state (no document loaded, no tracked
copy, no player attached) every edit request — text edit or color edit —
is a no-op: the state is unchanged, no player command is issued, no
patch is applied, and no error is raised. -/
theorem c8_edits_noop_without_document (s : CoordState) (layerIndex : Nat) (newText : String)
    (colorId : String) (path : List Key) (newColor : Json)
    (hdoc : s.animationData = none) (href : s.animationDataRef = none)
    (hplayer : s.playerLoaded = false) :
    handleUpdateText s layerIndex newText = some (s, []) ∧
    handleUpdateColor s colorId path newColor = some (s, []) := by
  constructor
  · simp [handleUpdateText, hplayer]
  · simp [handleUpdateColor, hplayer]

/-- **C8, witness.**  The initial state with nothing loaded ignores a
text edit and a color edit. -/
theorem c8_edits_noop_without_document_witness :
    handleUpdateText ⟨none, none, 0, false⟩ 0 "hi" = some (⟨none, none, 0, false⟩, []) ∧
    handleUpdateColor ⟨none, none, 0, false⟩ "layer-0-fill-0" [Key.str "layers"] (Json.num 1)
      = some (⟨none, none, 0, false⟩, []) :=
  c8_edits_noop_without_document ⟨none, none, 0, false⟩ 0 "hi" "layer-0-fill-0"
    [Key.str "layers"] (Json.num 1) rfl rfl rfl

theorem lookupField_setField_ne (fs : List (String × Json)) (k' k : String) (v : Json)
    (h : k ≠ k') : lookupField (setField fs k' v) k = lookupField fs k := by
  induction fs with
  | nil => simp [setField, lookupField, Ne.symm h]
  | cons hd tl ih =>
      obtain ⟨k0, w⟩ := hd
      by_cases hk : k0 = k'
      · subst hk
        simp [setField, lookupField, Ne.symm h]
      · simp [setField, hk, lookupField, ih]

/-- **C9.**  On image replacement the target asset's stored width and
height are exactly `toValidNumber` of the original asset's `w`/`h`
fields with the decoded image's natural dimensions as fallback: the
original values are preserved whenever they are numbers, and the
natural dimensions are substituted exactly when they are missing or
invalid. -/
theorem c9_image_dims_preserved (doc : Json) (rootFs : List (String × Json))
    (assets : List Json) (idx : Nat) (fs : List (String × Json))
    (imageWidth imageHeight : ℚ) (normalize : ℚ → ℚ → String)
    (hdoc : doc = Json.obj rootFs)
    (hassets : getF doc "assets" = Json.arr assets)
    (hasset : assets.getD idx Json.undefined = Json.obj fs) :
    ∃ doc', replaceImageAsset doc idx imageWidth imageHeight normalize = Except.ok doc' ∧
      getPath doc' [Key.str "assets", Key.num idx, Key.str "w"]
        = some (Json.num (toValidNumber (lookupField fs "w") imageWidth)) ∧
      getPath doc' [Key.str "assets", Key.num idx, Key.str "h"]
        = some (Json.num (toValidNumber (lookupField fs "h") imageHeight)) := by
  subst hdoc
  have hidx : idx < assets.length := by
    by_contra hge
    rw [List.getD_eq_getElem?_getD, List.getElem?_eq_none (by omega)] at hasset
    simp at hasset
  unfold replaceImageAsset
  rw [hassets]
  simp only [hasset]
  rw [if_neg (by simp [truthy])]
  refine ⟨_, rfl, ?_, ?_⟩
  · simp only [getPath, jsRead, getVal, getF, Option.some_bind]
    rw [lookupField_setField]
    simp only [getIdx, Option.some_bind]
    rw [List.getD_eq_getElem?_getD, List.getElem?_set_self hidx]
    simp only [Option.getD_some]
    rw [lookupField_setField_ne _ "h" "w" _ (by decide), lookupField_setField]
    rfl
  · simp only [getPath, jsRead, getVal, getF, Option.some_bind]
    rw [lookupField_setField]
    simp only [getIdx, Option.some_bind]
    rw [List.getD_eq_getElem?_getD, List.getElem?_set_self hidx]
    simp only [Option.getD_some]
    rw [lookupField_setField]
    rfl

/-- **C9, witness.**  An asset with `w: 50` but no `h`, replaced by an
image of natural size `200×99`, keeps `w = 50` and substitutes
`h = 99`. -/
theorem c9_image_dims_preserved_witness :
    ∃ doc', replaceImageAsset
        (Json.obj [("assets", Json.arr [Json.obj [("w", Json.num 50)]])])
        0 200 99 (fun _ _ => "data:image/png;base64,xyz") = Except.ok doc' ∧
      getPath doc' [Key.str "assets", Key.num 0, Key.str "w"] = some (Json.num 50) ∧
      getPath doc' [Key.str "assets", Key.num 0, Key.str "h"] = some (Json.num 99) := by
  obtain ⟨d', h1, h2, h3⟩ := c9_image_dims_preserved
    (Json.obj [("assets", Json.arr [Json.obj [("w", Json.num 50)]])])
    [("assets", Json.arr [Json.obj [("w", Json.num 50)]])]
    [Json.obj [("w", Json.num 50)]] 0 [("w", Json.num 50)] 200 99
    (fun _ _ => "data:image/png;base64,xyz") rfl rfl rfl
  exact ⟨d', h1, h2, h3⟩

/-!
## Shape extraction: emission order and identifier numbering
-/

theorem decorate_chain (acc acc1 : List ColorInfo) (li : Nat)
    (E1 E2 : List (String × List Key × Json))
    (h : acc1 = acc ++ (List.enumFrom acc.length E1).map (fun p => decorate li p.1 p.2)) :
    acc1 ++ (List.enumFrom acc1.length E2).map (fun p => decorate li p.1 p.2)
      = acc ++ (List.enumFrom acc.length (E1 ++ E2)).map (fun p => decorate li p.1 p.2) := by
  subst h
  simp [List.enumFrom_append, List.append_assoc]

theorem extractShapeColors_spec (ss : List Json) (li si : Nat) (acc : List ColorInfo)
    (base : List Key) :
    extractShapeColors ss li si acc base =
      acc ++ (List.enumFrom acc.length (shapeEmissions ss si base)).map
        (fun p => decorate li p.1 p.2) := by
  induction ss, li, si, acc, base using extractShapeColors.induct with
  | case1 li si acc base => simp [extractShapeColors, shapeEmissions]
  | case2 li si acc base sh rest cp c1 c2 c3 ih3 ih2 ih1 =>
      have hstep : extractShapeColors (sh :: rest) li si acc base
          = extractShapeColors rest li (si + 1) c3 base := by
        rw [extractShapeColors]
        rfl
      have e1 : c1 = (if h : (isStrVal (getF sh "ty") "gr" && truthy (getF sh "it")) = true then
          match h : asArr (getF sh "it") with
          | some its => extractShapeColors its li 0 acc (cp ++ [Key.str "it"])
          | none => acc
        else acc) := rfl
      have e2 : c2 = (if h : isStrVal (getF sh "ty") "fl" = true then
          (let k := optGet (getF sh "c") "k"
           if h : hasLen3 k = true then
             c1 ++ [⟨mkColorId li "fill" c1.length, "fill",
               cp ++ [Key.str "c", Key.str "k"], colorOfK k⟩]
           else c1)
        else c1) := rfl
      have e3 : c3 = (if h : isStrVal (getF sh "ty") "st" = true then
          (let k := optGet (getF sh "c") "k"
           if h : hasLen3 k = true then
             c2 ++ [⟨mkColorId li "stroke" c2.length, "stroke",
               cp ++ [Key.str "c", Key.str "k"], colorOfK k⟩]
           else c2)
        else c2) := rfl
      have hemit : shapeEmissions (sh :: rest) si base =
          ((if (isStrVal (getF sh "ty") "gr" && truthy (getF sh "it")) = true then
              match h : asArr (getF sh "it") with
              | some its => shapeEmissions its 0 (cp ++ [Key.str "it"])
              | none => []
            else [])
          ++ (if isStrVal (getF sh "ty") "fl" = true then
                (let k := optGet (getF sh "c") "k"
                 if hasLen3 k = true then
                   [("fill", cp ++ [Key.str "c", Key.str "k"], colorOfK k)]
                 else [])
              else [])
          ++ (if isStrVal (getF sh "ty") "st" = true then
                (let k := optGet (getF sh "c") "k"
                 if hasLen3 k = true then
                   [("stroke", cp ++ [Key.str "c", Key.str "k"], colorOfK k)]
                 else [])
              else []))
          ++ shapeEmissions rest (si + 1) base := by
        rw [shapeEmissions]
      have hc1 : c1 = acc ++ (List.enumFrom acc.length
          (if (isStrVal (getF sh "ty") "gr" && truthy (getF sh "it")) = true then
            match h : asArr (getF sh "it") with
            | some its => shapeEmissions its 0 (cp ++ [Key.str "it"])
            | none => []
          else [])).map (fun p => decorate li p.1 p.2) := by
        by_cases hgr : (isStrVal (getF sh "ty") "gr" && truthy (getF sh "it")) = true
        · rw [e1, dif_pos hgr, if_pos hgr]
          cases hit : asArr (getF sh "it") with
          | some its => exact ih3 its hit
          | none =>
              show acc = acc ++ (List.enumFrom acc.length []).map _
              simp
        · rw [e1, dif_neg hgr, if_neg hgr]
          simp
      have hc2 : c2 = c1 ++ (List.enumFrom c1.length
          (if isStrVal (getF sh "ty") "fl" = true then
            (let k := optGet (getF sh "c") "k"
             if hasLen3 k = true then
               [("fill", cp ++ [Key.str "c", Key.str "k"], colorOfK k)]
             else [])
          else [])).map (fun p => decorate li p.1 p.2) := by
        by_cases hfl : isStrVal (getF sh "ty") "fl" = true
        · by_cases hk : hasLen3 (optGet (getF sh "c") "k") = true
          · simp [e2, hfl, hk, decorate]
          · simp [e2, hfl, hk]
        · simp [e2, hfl]
      have hc3 : c3 = c2 ++ (List.enumFrom c2.length
          (if isStrVal (getF sh "ty") "st" = true then
            (let k := optGet (getF sh "c") "k"
             if hasLen3 k = true then
               [("stroke", cp ++ [Key.str "c", Key.str "k"], colorOfK k)]
             else [])
          else [])).map (fun p => decorate li p.1 p.2) := by
        by_cases hst : isStrVal (getF sh "ty") "st" = true
        · by_cases hk : hasLen3 (optGet (getF sh "c") "k") = true
          · simp [e3, hst, hk, decorate]
          · simp [e3, hst, hk]
        · simp [e3, hst]
      have hc2' := hc2.trans (decorate_chain acc c1 li _ _ hc1)
      have hc3' := hc3.trans (decorate_chain acc c2 li _ _ hc2')
      rw [hstep, ih1, decorate_chain acc c3 li _ _ hc3', hemit]

/-- **C7 (amended).**  For every shape layer (`ty === 4`) with a shapes
array, the layer's color list is exactly the depth-first, document-order
emission of its fill/stroke nodes (a group's children are emitted at the
group's position, with `it` appended to the path), where the element at
overall position `n` of the layer's color list gets identifier
`layer-{index}-{role}-{n}` — one counter per layer shared across the
fill and stroke roles, not a per-role counter, and the order is the
document order of the nodes, not fill-before-stroke. -/
theorem c7_shape_ids_order (l : Json) (i : Nat) (ss : List Json)
    (hty : getF l "ty" = Json.num 4) (hshapes : getF l "shapes" = Json.arr ss) :
    extractLayerColors l i =
      (List.enumFrom 0 (shapeEmissions ss 0 [Key.str "layers", Key.num i, Key.str "shapes"])).map
        (fun p => decorate i p.1 p.2) := by
  have h45 : isNumVal (Json.num 4) 5 = false := by decide
  have h44 : isNumVal (Json.num 4) 4 = true := by decide
  have h41 : isNumVal (Json.num 4) 1 = false := by decide
  unfold extractLayerColors textStage shapeStage solidStage
  rw [hty, hshapes]
  simp only [h45, h44, h41, Bool.false_and, Bool.false_eq_true, if_false, Bool.true_and,
    truthy, asArr, if_true]
  rw [extractShapeColors_spec]
  simp

/-- **C7, witness.**  A layer with a single fill shape yields one color
with identifier `layer-0-fill-0` and path `layers.0.shapes.0.c.k`. -/
theorem c7_shape_ids_order_witness :
    extractLayerColors (Json.obj [("ty", Json.num 4), ("shapes", Json.arr
        [Json.obj [("ty", Json.str "fl"),
          ("c", Json.obj [("k", Json.arr [Json.num 1, Json.num 0, Json.num 0])])]])]) 0 =
      [⟨"layer-0-fill-0", "fill",
        [Key.str "layers", Key.num 0, Key.str "shapes", Key.num 0, Key.str "c", Key.str "k"],
        Json.arr [Json.num 1, Json.num 0, Json.num 0, Json.num 1]⟩] := by
  rw [c7_shape_ids_order
    (Json.obj [("ty", Json.num 4), ("shapes", Json.arr
      [Json.obj [("ty", Json.str "fl"),
        ("c", Json.obj [("k", Json.arr [Json.num 1, Json.num 0, Json.num 0])])]])]) 0
    [Json.obj [("ty", Json.str "fl"),
      ("c", Json.obj [("k", Json.arr [Json.num 1, Json.num 0, Json.num 0])])]] rfl rfl]
  simp [shapeEmissions, getF, lookupField, optGet, isStrVal, truthy, hasLen3, colorOfK,
    getIdx, decorate, mkColorId, asArr]
  rfl

/-- **C7, counterexample.**  A shape layer whose shapes are a stroke
followed by a group containing a fill refutes the claim as stated: the
emission order is stroke before fill (document order, not
fill-before-stroke-before-group), and the fill — the first and only
fill of the layer — gets identifier `layer-0-fill-1`, not
`layer-0-fill-0`: the occurrence counter is shared across roles, not
per color role. -/
theorem c7_shape_ids_order_cex :
    extractAllColors (Json.obj [("layers", Json.arr
      [Json.obj [("ty", Json.num 4), ("shapes", Json.arr
        [Json.obj [("ty", Json.str "st"),
          ("c", Json.obj [("k", Json.arr [Json.num 0, Json.num 0, Json.num 0])])],
         Json.obj [("ty", Json.str "gr"), ("it", Json.arr
           [Json.obj [("ty", Json.str "fl"),
             ("c", Json.obj [("k", Json.arr [Json.num 1, Json.num 1, Json.num 1])])]])]])]])])
    = [⟨0, Json.str "Layer 0", Json.num 4,
        [⟨"layer-0-stroke-0", "stroke",
          [Key.str "layers", Key.num 0, Key.str "shapes", Key.num 0, Key.str "c", Key.str "k"],
          Json.arr [Json.num 0, Json.num 0, Json.num 0, Json.num 1]⟩,
         ⟨"layer-0-fill-1", "fill",
          [Key.str "layers", Key.num 0, Key.str "shapes", Key.num 1, Key.str "it", Key.num 0,
            Key.str "c", Key.str "k"],
          Json.arr [Json.num 1, Json.num 1, Json.num 1, Json.num 1]⟩]⟩] := by
  simp [extractAllColors, asArr, asStr, goLayers, extractLayerColors, textStage, shapeStage,
    solidStage, extractShapeColors, shapeEmissions, getF, lookupField, optGet, isStrVal,
    isNumVal, isStringType, truthy, hasLen3, colorOfK, getIdx, layerName, mkColorId]
  exact ⟨rfl, rfl, rfl⟩

/-!
## Solid layers and layer enumeration
-/

theorem goLayers_append (as bs : List Json) : ∀ n,
    goLayers (as ++ bs) n = goLayers as n ++ goLayers bs (n + as.length) := by
  induction as with
  | nil => intro n; simp [goLayers]
  | cons l rest ih =>
      intro n
      simp only [List.cons_append, goLayers, List.append_eq, ih (n + 1), List.length_cons,
        List.append_assoc]
      rw [show n + 1 + rest.length = n + (rest.length + 1) by omega]

/-- **C10.**  For every solid layer (`ty === 1`) whose `sc` field is any
string whatsoever, color extraction emits exactly one ColorInfo for the
layer: role `solid`, identifier `layer-{index}-solid`, path
`[layers, index, sc]`, and RGB components given by the fixed positional
parse `parseInt(sc.slice(1,3), 16) / 255` (and `slice(3,5)`,
`slice(5,7)`) assuming the `#rrggbb` layout — a string without the
leading `#`, of the wrong length, or with non-hex characters is not
rejected and does not fall back to `[0,0,0,1]`; its channels come from
the positional parse and may be `NaN`. -/
theorem c10_solid_positional (doc : Json) (pre post : List Json) (l : Json) (sc : String)
    (hdoc : getF doc "layers" = Json.arr (pre ++ l :: post))
    (hty : getF l "ty" = Json.num 1)
    (hsc : getF l "sc" = Json.str sc) :
    extractAllColors doc = goLayers pre 0 ++
      ⟨pre.length, layerName l pre.length, Json.num 1,
        [⟨"layer-" ++ toString pre.length ++ "-solid", "solid",
          [Key.str "layers", Key.num pre.length, Key.str "sc"],
          Json.arr [solidChannel sc 1 3, solidChannel sc 3 5, solidChannel sc 5 7,
            Json.num 1]⟩]⟩ :: goLayers post (pre.length + 1) := by
  have h15 : isNumVal (Json.num 1) 5 = false := by decide
  have h14 : isNumVal (Json.num 1) 4 = false := by decide
  have h11 : isNumVal (Json.num 1) 1 = true := by decide
  have hcolors : extractLayerColors l pre.length =
      [⟨"layer-" ++ toString pre.length ++ "-solid", "solid",
        [Key.str "layers", Key.num pre.length, Key.str "sc"],
        Json.arr [solidChannel sc 1 3, solidChannel sc 3 5, solidChannel sc 5 7,
          Json.num 1]⟩] := by
    unfold extractLayerColors textStage shapeStage solidStage
    rw [hty, hsc]
    simp [h15, h14, h11, isStringType, asStr]
  unfold extractAllColors
  rw [hdoc]
  simp only [asArr]
  rw [goLayers_append]
  simp only [Nat.zero_add, goLayers, hcolors, hty]
  simp

/-- **C10, witness.**  A solid layer with the malformed color string
`"red"` still emits one solid ColorInfo: `slice(1,3) = "ed"` parses to
`237/255`, while `slice(3,5)` and `slice(5,7)` are empty and parse to
`NaN` — no fallback to `[0,0,0,1]` happens. -/
theorem c10_solid_positional_witness :
    extractAllColors (Json.obj [("layers", Json.arr
        [Json.obj [("ty", Json.num 1), ("sc", Json.str "red")]])])
      = [⟨0, Json.str "Layer 0", Json.num 1,
          [⟨"layer-0-solid", "solid", [Key.str "layers", Key.num 0, Key.str "sc"],
            Json.arr [Json.num (237 / 255), Json.nan, Json.nan, Json.num 1]⟩]⟩] := by
  have hch1 : solidChannel "red" 1 3 = Json.num (237 / 255) := by
    unfold solidChannel
    rw [show strSlice "red" 1 3 = "ed" from rfl]
    rw [show parseIntHexJs "ed" = some (((1 : ℤ) : ℚ) * ((237 : ℕ) : ℚ)) from rfl]
    exact congrArg Json.num (by push_cast; norm_num)
  have hch2 : solidChannel "red" 3 5 = Json.nan := rfl
  have hch3 : solidChannel "red" 5 7 = Json.nan := rfl
  rw [c10_solid_positional
    (Json.obj [("layers", Json.arr [Json.obj [("ty", Json.num 1), ("sc", Json.str "red")]])])
    [] [] (Json.obj [("ty", Json.num 1), ("sc", Json.str "red")]) "red" rfl rfl rfl]
  simp [goLayers, layerName, getF, lookupField, truthy, hch1, hch2, hch3]
  exact ⟨rfl, rfl⟩

/-!
## Extractor-produced paths resolve (toward the patch round-trip)
-/

theorem getPath_append (p q : List Key) : ∀ j : Json,
    getPath j (p ++ q) = (getPath j p).bind (fun x => getPath x q) := by
  induction p with
  | nil => intro j; simp [getPath]
  | cons k rest ih =>
      intro j
      simp only [List.cons_append, getPath]
      cases jsRead j k with
      | none => simp
      | some c => simp [ih c]

theorem getF_ne_obj (j : Json) (key : String) (h : getF j key ≠ Json.undefined) :
    ∃ fs, j = Json.obj fs := by
  cases j
  case obj fs => exact ⟨fs, rfl⟩
  all_goals exact absurd rfl h

theorem optGet_ne (j : Json) (key : String) (h : optGet j key ≠ Json.undefined) :
    ∃ fs, j = Json.obj fs ∧ optGet j key = lookupField fs key := by
  cases j
  case obj fs => exact ⟨fs, rfl, rfl⟩
  all_goals exact absurd rfl h

theorem optGet_read (j : Json) (key : String) (h : optGet j key ≠ Json.undefined) :
    jsRead j (Key.str key) = some (optGet j key) := by
  cases j <;> first
    | exact absurd rfl h
    | rfl

theorem optIdx_read (j : Json) (i : Nat) (h : optIdx j i ≠ Json.undefined) :
    jsRead j (Key.num i) = some (optIdx j i) := by
  cases j <;> first
    | exact absurd rfl h
    | rfl

theorem hasLen3_ne_undefined (j : Json) (h : hasLen3 j = true) : j ≠ Json.undefined := by
  cases j <;> simp [hasLen3] at h ⊢

theorem isStrVal_eq (j : Json) (s : String) (h : isStrVal j s = true) : j = Json.str s := by
  cases j <;> simp [isStrVal] at h
  exact congrArg Json.str h

theorem isNumVal_eq (j : Json) (q : ℚ) (h : isNumVal j q = true) : j = Json.num q := by
  cases j <;> simp [isNumVal] at h
  exact congrArg Json.num h

theorem isStringType_eq (j : Json) (h : isStringType j = true) : ∃ s, j = Json.str s := by
  cases j <;> simp [isStringType] at h
  exact ⟨_, rfl⟩

/-- Fill/stroke emission paths resolve: the shape node holds an object
`c` whose `k` field is the existing color value. -/
theorem ck_resolved (doc sh : Json) (cp : List Key)
    (hsh : getPath doc cp = some sh) (fs : List (String × Json)) (hobj : sh = Json.obj fs)
    (hk : hasLen3 (optGet (getF sh "c") "k") = true) :
    ResolvedPath doc (cp ++ [Key.str "c", Key.str "k"]) := by
  subst hobj
  have hne : optGet (getF (Json.obj fs) "c") "k" ≠ Json.undefined :=
    hasLen3_ne_undefined _ hk
  obtain ⟨cfs, hc, hval⟩ := optGet_ne _ "k" hne
  refine ⟨cp ++ [Key.str "c"], Key.str "k", Json.obj cfs, lookupField cfs "k", ?_, ?_, rfl, rfl⟩
  · simp
  · rw [getPath_append, hsh, Option.some_bind]
    simp [getPath, jsRead, getVal, hc]

theorem extractShapeColors_resolved (ss : List Json) (li si : Nat) (acc : List ColorInfo)
    (base : List Key) :
    ∀ (doc : Json) (full : List Json),
      getPath doc base = some (Json.arr full) → ss = full.drop si →
      (∀ ci ∈ acc, ResolvedColor doc ci) →
      ∀ ci ∈ extractShapeColors ss li si acc base, ResolvedColor doc ci := by
  induction ss, li, si, acc, base using extractShapeColors.induct with
  | case1 li si acc base =>
      intro doc full hbase hdrop hacc ci hci
      rw [extractShapeColors] at hci
      exact hacc ci hci
  | case2 li si acc base sh rest cp c1 c2 c3 ih3 ih2 ih1 =>
      intro doc full hbase hdrop hacc ci hci
      have hsi : full[si]? = some sh := by
        have h0 : (full.drop si)[0]? = some sh := by rw [← hdrop]; simp
        rw [List.getElem?_drop] at h0
        simpa using h0
      have hsh : getPath doc (base ++ [Key.num si]) = some sh := by
        rw [getPath_append, hbase, Option.some_bind]
        simp [getPath, jsRead, getVal, getIdx, List.getD_eq_getElem?_getD, hsi]
      have hcp : getPath doc cp = some sh := hsh
      have hrest : rest = full.drop (si + 1) := by
        have ht : (full.drop si).tail = full.drop (si + 1) := by
          rw [List.tail_drop]
        rw [← ht, ← hdrop]
        rfl
      have e1 : c1 = (if h : (isStrVal (getF sh "ty") "gr" && truthy (getF sh "it")) = true then
          match h : asArr (getF sh "it") with
          | some its => extractShapeColors its li 0 acc (cp ++ [Key.str "it"])
          | none => acc
        else acc) := rfl
      have e2 : c2 = (if h : isStrVal (getF sh "ty") "fl" = true then
          (let k := optGet (getF sh "c") "k"
           if h : hasLen3 k = true then
             c1 ++ [⟨mkColorId li "fill" c1.length, "fill",
               cp ++ [Key.str "c", Key.str "k"], colorOfK k⟩]
           else c1)
        else c1) := rfl
      have e3 : c3 = (if h : isStrVal (getF sh "ty") "st" = true then
          (let k := optGet (getF sh "c") "k"
           if h : hasLen3 k = true then
             c2 ++ [⟨mkColorId li "stroke" c2.length, "stroke",
               cp ++ [Key.str "c", Key.str "k"], colorOfK k⟩]
           else c2)
        else c2) := rfl
      have hstep : extractShapeColors (sh :: rest) li si acc base
          = extractShapeColors rest li (si + 1) c3 base := by
        rw [extractShapeColors]
        rfl
      have hc1res : ∀ ci' ∈ c1, ResolvedColor doc ci' := by
        intro ci' hci'
        rw [e1] at hci'
        by_cases hgr : (isStrVal (getF sh "ty") "gr" && truthy (getF sh "it")) = true
        · rw [dif_pos hgr] at hci'
          revert hci'
          cases hit : asArr (getF sh "it") with
          | some its =>
              intro hci'
              have hit' : getF sh "it" = Json.arr its := (asArr_eq_some _ _).mp hit
              have htygr : getF sh "ty" = Json.str "gr" :=
                isStrVal_eq _ _ ((Bool.and_eq_true _ _).mp hgr).1
              obtain ⟨shfs, hshfs⟩ := getF_ne_obj sh "ty" (by rw [htygr]; intro hh; cases hh)
              have hbase' : getPath doc (cp ++ [Key.str "it"]) = some (Json.arr its) := by
                rw [getPath_append, hcp, Option.some_bind]
                rw [hshfs] at hit' ⊢
                simp [getPath, jsRead, getVal, hit']
              exact ih3 its hit doc its hbase' (by simp) hacc ci' hci'
          | none =>
              intro hci'
              exact hacc ci' hci'
        · rw [dif_neg hgr] at hci'
          exact hacc ci' hci'
      have hc2res : ∀ ci' ∈ c2, ResolvedColor doc ci' := by
        intro ci' hci'
        rw [e2] at hci'
        by_cases hfl : isStrVal (getF sh "ty") "fl" = true
        · by_cases hk : hasLen3 (optGet (getF sh "c") "k") = true
          · simp only [dif_pos hfl, dif_pos hk, List.mem_append, List.mem_singleton] at hci'
            rcases hci' with hold | hnew
            · exact hc1res ci' hold
            · subst hnew
              have htyfl : getF sh "ty" = Json.str "fl" := isStrVal_eq _ _ hfl
              obtain ⟨shfs, hshfs⟩ := getF_ne_obj sh "ty" (by rw [htyfl]; intro hh; cases hh)
              exact ck_resolved doc sh cp hcp shfs hshfs hk
          · simp only [dif_pos hfl, dif_neg hk] at hci'
            exact hc1res ci' hci'
        · rw [dif_neg hfl] at hci'
          exact hc1res ci' hci'
      have hc3res : ∀ ci' ∈ c3, ResolvedColor doc ci' := by
        intro ci' hci'
        rw [e3] at hci'
        by_cases hst : isStrVal (getF sh "ty") "st" = true
        · by_cases hk : hasLen3 (optGet (getF sh "c") "k") = true
          · simp only [dif_pos hst, dif_pos hk, List.mem_append, List.mem_singleton] at hci'
            rcases hci' with hold | hnew
            · exact hc2res ci' hold
            · subst hnew
              have htyst : getF sh "ty" = Json.str "st" := isStrVal_eq _ _ hst
              obtain ⟨shfs, hshfs⟩ := getF_ne_obj sh "ty" (by rw [htyst]; intro hh; cases hh)
              exact ck_resolved doc sh cp hcp shfs hshfs hk
          · simp only [dif_pos hst, dif_neg hk] at hci'
            exact hc2res ci' hci'
        · rw [dif_neg hst] at hci'
          exact hc2res ci' hci'
      rw [hstep] at hci
      exact ih1 doc full hbase hrest hc3res ci hci

/-- The text-color path resolves: each link of the optional-chaining
read succeeds with an object (or, for the keyframe index, a readable
container), ending at an object carrying `fc`. -/
theorem text_resolved (doc l : Json) (i : Nat)
    (hl : getPath doc [Key.str "layers", Key.num i] = some l)
    (hfc : hasLen3 (optGet (optGet (optIdx (optGet (optGet (getF l "t") "d") "k") 0) "s") "fc")
      = true) :
    ResolvedPath doc [Key.str "layers", Key.num i, Key.str "t", Key.str "d", Key.str "k",
      Key.num 0, Key.str "s", Key.str "fc"] := by
  have hne_fc := hasLen3_ne_undefined _ hfc
  obtain ⟨sfs, hsobj, hsval⟩ := optGet_ne _ "fc" hne_fc
  have hne_s : optGet (optIdx (optGet (optGet (getF l "t") "d") "k") 0) "s"
      ≠ Json.undefined := by
    rw [hsobj]; intro hh; cases hh
  obtain ⟨fkfs, hfkobj, _⟩ := optGet_ne _ "s" hne_s
  have hne_fk : optIdx (optGet (optGet (getF l "t") "d") "k") 0 ≠ Json.undefined := by
    rw [hfkobj]; intro hh; cases hh
  have hne_k : optGet (optGet (getF l "t") "d") "k" ≠ Json.undefined := by
    intro hh
    rw [hh] at hne_fk
    exact hne_fk rfl
  obtain ⟨dfs, hdobj, _⟩ := optGet_ne _ "k" hne_k
  have hne_d : optGet (getF l "t") "d" ≠ Json.undefined := by
    rw [hdobj]; intro hh; cases hh
  obtain ⟨tfs, htobj, _⟩ := optGet_ne _ "d" hne_d
  have hne_t : getF l "t" ≠ Json.undefined := by
    rw [htobj]; intro hh; cases hh
  obtain ⟨lfs, hlobj⟩ := getF_ne_obj l "t" hne_t
  have r1 : jsRead l (Key.str "t") = some (getF l "t") := by rw [hlobj]; rfl
  have r2 : jsRead (getF l "t") (Key.str "d") = some (optGet (getF l "t") "d") :=
    optGet_read _ _ hne_d
  have r3 : jsRead (optGet (getF l "t") "d") (Key.str "k")
      = some (optGet (optGet (getF l "t") "d") "k") := optGet_read _ _ hne_k
  have r4 : jsRead (optGet (optGet (getF l "t") "d") "k") (Key.num 0)
      = some (optIdx (optGet (optGet (getF l "t") "d") "k") 0) := optIdx_read _ _ hne_fk
  have r5 : jsRead (optIdx (optGet (optGet (getF l "t") "d") "k") 0) (Key.str "s")
      = some (optGet (optIdx (optGet (optGet (getF l "t") "d") "k") 0) "s") :=
    optGet_read _ _ hne_s
  refine ⟨[Key.str "layers", Key.num i, Key.str "t", Key.str "d", Key.str "k", Key.num 0,
    Key.str "s"], Key.str "fc", Json.obj sfs, lookupField sfs "fc", rfl, ?_, rfl, rfl⟩
  have hsplit : ([Key.str "layers", Key.num i, Key.str "t", Key.str "d", Key.str "k",
      Key.num 0, Key.str "s"] : List Key)
      = [Key.str "layers", Key.num i] ++ [Key.str "t", Key.str "d", Key.str "k", Key.num 0,
        Key.str "s"] := rfl
  rw [hsplit, getPath_append, hl, Option.some_bind]
  simp only [getPath, r1, r2, r3, r4, r5, Option.some_bind]
  rw [hsobj]

theorem textStage_resolved (doc l : Json) (i : Nat) (acc : List ColorInfo)
    (hl : getPath doc [Key.str "layers", Key.num i] = some l)
    (hacc : ∀ ci ∈ acc, ResolvedColor doc ci) :
    ∀ ci ∈ textStage l i acc, ResolvedColor doc ci := by
  intro ci hci
  unfold textStage at hci
  by_cases h5 : isNumVal (getF l "ty") 5 = true
  · rw [if_pos h5] at hci
    by_cases hfc : hasLen3 (optGet (optGet (optIdx (optGet (optGet (getF l "t") "d") "k") 0)
        "s") "fc") = true
    · rw [if_pos hfc, List.mem_append, List.mem_singleton] at hci
      rcases hci with hold | hnew
      · exact hacc ci hold
      · subst hnew
        exact text_resolved doc l i hl hfc
    · rw [if_neg hfc] at hci
      exact hacc ci hci
  · rw [if_neg h5] at hci
    exact hacc ci hci

theorem shapeStage_resolved (doc l : Json) (i : Nat) (acc : List ColorInfo)
    (hl : getPath doc [Key.str "layers", Key.num i] = some l)
    (hacc : ∀ ci ∈ acc, ResolvedColor doc ci) :
    ∀ ci ∈ shapeStage l i acc, ResolvedColor doc ci := by
  intro ci hci
  unfold shapeStage at hci
  by_cases h4 : (isNumVal (getF l "ty") 4 && truthy (getF l "shapes")) = true
  · rw [if_pos h4] at hci
    revert hci
    cases hss : asArr (getF l "shapes") with
    | some ss =>
        intro hci
        have hss' : getF l "shapes" = Json.arr ss := (asArr_eq_some _ _).mp hss
        have hty4 : getF l "ty" = Json.num 4 :=
          isNumVal_eq _ _ ((Bool.and_eq_true _ _).mp h4).1
        obtain ⟨lfs, hlobj⟩ := getF_ne_obj l "ty" (by rw [hty4]; intro hh; cases hh)
        have hbase : getPath doc [Key.str "layers", Key.num i, Key.str "shapes"]
            = some (Json.arr ss) := by
          have hsplit : ([Key.str "layers", Key.num i, Key.str "shapes"] : List Key)
              = [Key.str "layers", Key.num i] ++ [Key.str "shapes"] := rfl
          rw [hsplit, getPath_append, hl, Option.some_bind]
          rw [hlobj] at hss' ⊢
          simp [getPath, jsRead, getVal, hss']
        exact extractShapeColors_resolved ss i 0 acc
          [Key.str "layers", Key.num i, Key.str "shapes"] doc ss hbase (by simp) hacc ci hci
    | none =>
        intro hci
        exact hacc ci hci
  · rw [if_neg h4] at hci
    exact hacc ci hci

theorem solidStage_resolved (doc l : Json) (i : Nat) (acc : List ColorInfo)
    (hl : getPath doc [Key.str "layers", Key.num i] = some l)
    (hacc : ∀ ci ∈ acc, ResolvedColor doc ci) :
    ∀ ci ∈ solidStage l i acc, ResolvedColor doc ci := by
  intro ci hci
  unfold solidStage at hci
  by_cases h1 : (isNumVal (getF l "ty") 1 && isStringType (getF l "sc")) = true
  · rw [if_pos h1] at hci
    revert hci
    cases hsc : asStr (getF l "sc") with
    | some hex =>
        intro hci
        rw [List.mem_append, List.mem_singleton] at hci
        rcases hci with hold | hnew
        · exact hacc ci hold
        · subst hnew
          have hty1 : getF l "ty" = Json.num 1 :=
            isNumVal_eq _ _ ((Bool.and_eq_true _ _).mp h1).1
          obtain ⟨lfs, hlobj⟩ := getF_ne_obj l "ty" (by rw [hty1]; intro hh; cases hh)
          refine ⟨[Key.str "layers", Key.num i], Key.str "sc", l, getF l "sc", rfl, hl, ?_, ?_⟩
          · rw [hlobj]; rfl
          · rw [hlobj]; rfl
    | none =>
        intro hci
        exact hacc ci hci
  · rw [if_neg h1] at hci
    exact hacc ci hci

theorem goLayers_resolved (ls : List Json) : ∀ (n : Nat) (doc : Json) (full : List Json),
    getF doc "layers" = Json.arr full → ls = full.drop n →
    ∀ cl ∈ goLayers ls n, ∀ ci ∈ cl.colors, ResolvedColor doc ci := by
  induction ls with
  | nil => intro n doc full hlayers hdrop cl hcl; simp [goLayers] at hcl
  | cons l rest ih =>
      intro n doc full hlayers hdrop cl hcl ci hci
      obtain ⟨docFs, hdocObj⟩ := getF_ne_obj doc "layers" (by rw [hlayers]; intro hh; cases hh)
      have hn : full[n]? = some l := by
        have h0 : (full.drop n)[0]? = some l := by rw [← hdrop]; simp
        rw [List.getElem?_drop] at h0
        simpa using h0
      have hl : getPath doc [Key.str "layers", Key.num n] = some l := by
        have hr : jsRead doc (Key.str "layers") = some (Json.arr full) := by
          rw [hdocObj] at hlayers ⊢
          simp [jsRead, getVal, hlayers]
        simp only [getPath, hr, Option.some_bind]
        simp [jsRead, getVal, getIdx, List.getD_eq_getElem?_getD, hn]
      simp only [goLayers, List.mem_append] at hcl
      rcases hcl with hhead | htail
      · have hclq : cl = ⟨n, layerName l n, getF l "ty", extractLayerColors l n⟩ := by
          revert hhead
          split
          · intro hhead
            simpa using hhead
          · intro hhead
            simp at hhead
        subst hclq
        have hres : ∀ ci' ∈ extractLayerColors l n, ResolvedColor doc ci' := by
          intro ci' hci'
          unfold extractLayerColors at hci'
          exact solidStage_resolved doc l n _ hl
            (shapeStage_resolved doc l n _ hl (textStage_resolved doc l n [] hl (by simp)))
            ci' hci'
        exact hres ci hci
      · have hrest : rest = full.drop (n + 1) := by
          have ht : (full.drop n).tail = full.drop (n + 1) := by rw [List.tail_drop]
          rw [← ht, ← hdrop]
          rfl
        exact ih (n + 1) doc full hlayers hrest cl htail ci hci

/-- **C1 (amended).**  For every document, every path address produced by
the Entity Extractor against that document, and every new value,
`patch(document, path, value)` succeeds and returns a new document in
which reading at that path yields the value — except when the existing
value at the path is an array of exactly 3 elements and the new value is
an array, in which case reading yields the new value truncated to its
first 3 elements (`truncValue`).  The caller's document is unchanged:
the source deep-clones before writing, which the functional model makes
inherent. -/
theorem c1_patch_roundtrip (doc : Json) (cl : ColorLayerInfo) (ci : ColorInfo) (v : Json)
    (hcl : cl ∈ extractAllColors doc) (hci : ci ∈ cl.colors) :
    ∃ orig d', getPath doc ci.path = some orig ∧
      updateColorInJson doc ci.path v = some d' ∧
      getPath d' ci.path = some (truncValue orig v) := by
  have hres : ResolvedColor doc ci := by
    unfold extractAllColors at hcl
    revert hcl
    cases hlays : asArr (getF doc "layers") with
    | some full =>
        intro hcl
        exact goLayers_resolved full 0 doc full ((asArr_eq_some _ _).mp hlays) (by simp)
          cl hcl ci hci
    | none =>
        intro hcl
        simp at hcl
  obtain ⟨init, last, parent, orig, hp, hinit, hfit, horig⟩ := hres
  have hgetfull : getPath doc ci.path = some orig := by
    rw [hp, getPath_append, hinit, Option.some_bind]
    simp [getPath, horig]
  obtain ⟨d', hupd, hread⟩ := patchAt_resolved init doc parent orig last v hinit horig hfit
  rw [← updateColorInJson_eq_patchAt doc (init ++ [last]) v (by simp)] at hupd
  refine ⟨orig, d', hgetfull, ?_, ?_⟩
  · rw [hp]; exact hupd
  · rw [hp]; exact hread

/-- **C1, witness.**  A document with one fill whose existing `c.k`
value is the 3-element array `[0,0,0]`: the extractor produces the path
`layers.0.shapes.0.c.k`, and patching there succeeds with the read-back
given by `truncValue`. -/
theorem c1_patch_roundtrip_witness :
    ∃ orig d',
      getPath (Json.obj [("layers", Json.arr [Json.obj [("ty", Json.num 4),
          ("shapes", Json.arr [Json.obj [("ty", Json.str "fl"),
            ("c", Json.obj [("k", Json.arr [Json.num 0, Json.num 0, Json.num 0])])]])]])])
        [Key.str "layers", Key.num 0, Key.str "shapes", Key.num 0, Key.str "c", Key.str "k"]
        = some orig ∧
      updateColorInJson (Json.obj [("layers", Json.arr [Json.obj [("ty", Json.num 4),
          ("shapes", Json.arr [Json.obj [("ty", Json.str "fl"),
            ("c", Json.obj [("k", Json.arr [Json.num 0, Json.num 0, Json.num 0])])]])]])])
        [Key.str "layers", Key.num 0, Key.str "shapes", Key.num 0, Key.str "c", Key.str "k"]
        (Json.arr [Json.num 1, Json.num 1, Json.num 1, Json.num 1]) = some d' ∧
      getPath d' [Key.str "layers", Key.num 0, Key.str "shapes", Key.num 0, Key.str "c",
        Key.str "k"]
        = some (truncValue orig (Json.arr [Json.num 1, Json.num 1, Json.num 1, Json.num 1])) := by
  have hextract : extractAllColors (Json.obj [("layers", Json.arr [Json.obj [("ty", Json.num 4),
      ("shapes", Json.arr [Json.obj [("ty", Json.str "fl"),
        ("c", Json.obj [("k", Json.arr [Json.num 0, Json.num 0, Json.num 0])])]])]])])
      = [⟨0, Json.str "Layer 0", Json.num 4,
          [⟨"layer-0-fill-0", "fill",
            [Key.str "layers", Key.num 0, Key.str "shapes", Key.num 0, Key.str "c",
              Key.str "k"],
            Json.arr [Json.num 0, Json.num 0, Json.num 0, Json.num 1]⟩]⟩] := by
    simp [extractAllColors, asArr, asStr, goLayers, extractLayerColors, textStage, shapeStage,
      solidStage, extractShapeColors, shapeEmissions, getF, lookupField, optGet, isStrVal,
      isNumVal, isStringType, truthy, hasLen3, colorOfK, getIdx, layerName, mkColorId]
    exact ⟨rfl, rfl⟩
  exact c1_patch_roundtrip _
    (⟨0, Json.str "Layer 0", Json.num 4,
      [⟨"layer-0-fill-0", "fill",
        [Key.str "layers", Key.num 0, Key.str "shapes", Key.num 0, Key.str "c", Key.str "k"],
        Json.arr [Json.num 0, Json.num 0, Json.num 0, Json.num 1]⟩]⟩)
    (⟨"layer-0-fill-0", "fill",
      [Key.str "layers", Key.num 0, Key.str "shapes", Key.num 0, Key.str "c", Key.str "k"],
      Json.arr [Json.num 0, Json.num 0, Json.num 0, Json.num 1]⟩)
    (Json.arr [Json.num 1, Json.num 1, Json.num 1, Json.num 1])
    (by rw [hextract]; simp) (by simp)

/-- **C1, counterexample.**  The exact round-trip fails on a 3-element
target: the extractor produces the path `layers.0.shapes.0.c.k` for the
fill below (existing value `[0,0,0]`), yet patching with the 4-element
`[1,1,1,1]` stores `[1,1,1]` — reading back at the path does not yield
the patched value. -/
theorem c1_patch_roundtrip_cex :
    extractAllColors (Json.obj [("layers", Json.arr [Json.obj [("ty", Json.num 4),
        ("shapes", Json.arr [Json.obj [("ty", Json.str "fl"),
          ("c", Json.obj [("k", Json.arr [Json.num 0, Json.num 0, Json.num 0])])]])]])])
      = [⟨0, Json.str "Layer 0", Json.num 4,
          [⟨"layer-0-fill-0", "fill",
            [Key.str "layers", Key.num 0, Key.str "shapes", Key.num 0, Key.str "c",
              Key.str "k"],
            Json.arr [Json.num 0, Json.num 0, Json.num 0, Json.num 1]⟩]⟩] ∧
    updateColorInJson (Json.obj [("layers", Json.arr [Json.obj [("ty", Json.num 4),
        ("shapes", Json.arr [Json.obj [("ty", Json.str "fl"),
          ("c", Json.obj [("k", Json.arr [Json.num 0, Json.num 0, Json.num 0])])]])]])])
      [Key.str "layers", Key.num 0, Key.str "shapes", Key.num 0, Key.str "c", Key.str "k"]
      (Json.arr [Json.num 1, Json.num 1, Json.num 1, Json.num 1])
      = some (Json.obj [("layers", Json.arr [Json.obj [("ty", Json.num 4),
          ("shapes", Json.arr [Json.obj [("ty", Json.str "fl"),
            ("c", Json.obj [("k", Json.arr [Json.num 1, Json.num 1, Json.num 1])])]])]])]) ∧
    getPath (Json.obj [("layers", Json.arr [Json.obj [("ty", Json.num 4),
        ("shapes", Json.arr [Json.obj [("ty", Json.str "fl"),
          ("c", Json.obj [("k", Json.arr [Json.num 1, Json.num 1, Json.num 1])])]])]])])
      [Key.str "layers", Key.num 0, Key.str "shapes", Key.num 0, Key.str "c", Key.str "k"]
      = some (Json.arr [Json.num 1, Json.num 1, Json.num 1]) ∧
    Json.arr [Json.num 1, Json.num 1, Json.num 1]
      ≠ Json.arr [Json.num 1, Json.num 1, Json.num 1, Json.num 1] := by
  refine ⟨?_, rfl, rfl, by simp⟩
  simp [extractAllColors, asArr, asStr, goLayers, extractLayerColors, textStage, shapeStage,
    solidStage, extractShapeColors, shapeEmissions, getF, lookupField, optGet, isStrVal,
    isNumVal, isStringType, truthy, hasLen3, colorOfK, getIdx, layerName, mkColorId]
  exact ⟨rfl, rfl⟩
